import Mathlib

/-!
Verification development for the SUPER CAPT capture/crop/PDF pipeline
(src/pdf_allinone_capture.py, class SuperCaptApp).

The Python program is embedded shallowly:

* Strings are Lean strings; Python's string comparison (by code point) is
  modelled by a structural lexicographic comparison on the character lists,
  and Python's sorted() by a stable insertion sort over that order.
* Python's float arithmetic (IEEE 754 binary64, round to nearest, ties to
  even) is modelled exactly over the natural numbers: a positive rational
  a / b in the binary64 normal range is rounded by scaling into the 53-bit
  mantissa window and rounding the scaled value half-to-even.  The model
  covers every value that occurs in the progress computations of the
  program (quotients page/total with 1 <= page <= total <= 9999, and such
  quotients multiplied by 40 or 50).
* PIL images are records carrying a mode, a size and a pixel function;
  Image.crop and Image.convert("RGB") are modelled after Pillow's
  documented semantics (crop pads out-of-bounds area, it never clamps).
* Qt's QRect is a record of the two inclusive corners, with width, height,
  isEmpty and normalized following the Qt sources.
* The two worker methods capture_pages_task and crop_and_create_pdf_task
  are modelled as pure functions of an environment that contains everything
  the methods read from self: the configured total, the screenshot source,
  the crop rectangle, the shared is_capturing flag (as the sequence of
  values returned by its successive reads) and the shared is_paused flag.
  Log lines and progress labels are modelled by small inductive types, one
  constructor per distinct message of the source.
* Real-time sleeps and the pause busy-wait (which only delays, and writes
  nothing) are not part of the functional model; the flags they consult
  are modelled in AppState.
-/

/-! ### Python string order -/

/-- Lexicographic strict comparison of two character lists by code point.
This is Python's `<` on str (and agrees with Lean's String order), written
as a structural recursion so that it evaluates inside the kernel. -/
def lexLt : List Char → List Char → Bool
  | [], [] => false
  | [], _ :: _ => true
  | _ :: _, [] => false
  | a :: as, b :: bs =>
    if a.toNat < b.toNat then true
    else if b.toNat < a.toNat then false
    else lexLt as bs

/-- Strict lexicographic order on strings, Python's `s < t`. -/
def strLt (s t : String) : Bool := lexLt s.data t.data

/-- Propositional form of `strLt`. -/
def SLt (s t : String) : Prop := strLt s t = true

/-- Non-strict lexicographic order on strings, Python's `s <= t`. -/
def SLe (s t : String) : Prop := strLt t s = false

instance : DecidableRel SLt := fun s t => inferInstanceAs (Decidable (strLt s t = true))

instance : DecidableRel SLe := fun s t => inferInstanceAs (Decidable (strLt t s = false))

/-- Model of Python's sorted() on a list of strings: a stable sort by the
lexicographic order.  sorted() is a stable comparison sort, so any stable
sorting algorithm models it; we use insertion sort, whose correctness
lemmas are available. -/
def pySorted (l : List String) : List String := List.insertionSort SLe l

/-- Model of Python's str.endswith (line 439 / line 465: f.endswith('.png')). -/
def pyEndsWith (s sfx : String) : Bool := sfx.data.isSuffixOf s.data

/-! ### Page filenames -/

/-- Python f-string formatting "%04d": the decimal digits of n, left-padded
with '0' to width at least 4 (line 411: f"page_{page:04d}.png").
Nat.toDigits 10 n is the list of decimal digit characters of n, most
significant first, exactly Python's str(n) for a natural number. -/
def pad04 (n : ℕ) : String :=
  ⟨List.replicate (4 - (Nat.toDigits 10 n).length) '0' ++ Nat.toDigits 10 n⟩

/-- Filename of the captured page image, line 411. -/
def pageFilename (n : ℕ) : String := "page_" ++ pad04 n ++ ".png"

/-! ### IEEE binary64 model of the progress arithmetic

CPython computes `page / total` by IEEE 754 binary64 division (correctly
rounded, round to nearest, ties to even), multiplies by the int 50 (the
int is converted exactly, the product is again correctly rounded), and
int() truncates toward zero.  For positive operands in the binary64 normal
range, correct rounding of an exact rational value q means: write
q = m * 2 ^ (e - 52) with 2 ^ e <= q < 2 ^ (e + 1), round the scaled
mantissa q * 2 ^ (52 - e) (which lies in [2^52, 2^53)) to the nearest
integer, ties to the even integer.  Everything below implements exactly
that over ℕ, with the rational a / b kept as the pair (a, b). -/

/-- Fuel-driven floor of log base 2 (the fuel bounds the recursion depth so
that the definition is structural and kernel-reducible). -/
def log2fuel : ℕ → ℕ → ℕ
  | 0, _ => 0
  | fuel + 1, n => if 2 ≤ n then log2fuel fuel (n / 2) + 1 else 0

/-- Floor of log base 2, total on ℕ, exact for n < 2 ^ 200 (every number in
this development is far below that). -/
def natLog2 (n : ℕ) : ℕ := log2fuel 200 n

/-- Round a / b (b > 0) to the nearest integer, ties to even. -/
def rheDiv (a b : ℕ) : ℕ :=
  let q := a / b
  let r := a % b
  if 2 * r < b then q else if b < 2 * r then q + 1 else if q % 2 = 0 then q else q + 1

/-- Binary64 scaling shift for the positive rational a / b: with
e = floor(log2 (a/b)) = natLog2 (a * 2^64 / b) - 64, this is 52 - e,
written without integer subtraction.  Valid whenever b <= a * 2^64 and
e <= 52, which holds for every value rounded in this development. -/
def dShift (a b : ℕ) : ℕ := 116 - natLog2 (a * 2 ^ 64 / b)

/-- The binary64 value nearest to a / b, returned as a pair (m, d) whose
value is the rational m / d, where d = 2 ^ (52 - e).  This is the result
of any correctly-rounded binary64 operation whose exact value is a / b. -/
def roundDoubleN (a b : ℕ) : ℕ × ℕ := (rheDiv (a * 2 ^ dShift a b) b, 2 ^ dShift a b)

/-- Python's int((p / t) * c) for naturals p, t, c: binary64 division p / t,
then binary64 multiplication by the exactly-converted int c, then
truncation toward zero (which is floor, all values being nonnegative). -/
def floatProg (c p t : ℕ) : ℕ :=
  let md := roundDoubleN p t
  let md2 := roundDoubleN (c * md.1) md.2
  md2.1 / md2.2

/-- Progress percentage emitted after capturing a page, line 414:
progress = int((page / total) * 50). -/
def progressCapture (page total : ℕ) : ℕ := floatProg 50 page total

/-- Progress percentage emitted after cropping the i-th image, line 455:
progress = 50 + int((i / total_images) * 40). -/
def progressCrop (i total_images : ℕ) : ℕ := 50 + floatProg 40 i total_images

/-! ### PIL images -/

/-- Color modes of the PIL images that can flow through the pipeline. -/
inductive PILMode where
  | RGB
  | RGBA
  | L
  | P
deriving DecidableEq

/-- A PIL image: mode, pixel size, and the pixel data as a function from
integer coordinates to an (r, g, b, a) quadruple.  Coordinates outside
[0, width) x [0, height) are unused. -/
structure PILImage where
  mode : PILMode
  width : ℕ
  height : ℕ
  px : ℤ → ℤ → ℕ × ℕ × ℕ × ℕ

/-- PIL Image.crop with box (l, u, r, b): the result has size exactly
(r - l, b - u); pixels are taken from the source where the box overlaps it
and are zero-filled outside.  Pillow does not intersect the box with the
image bounds. -/
def PILImage.crop (img : PILImage) (l u r b : ℤ) : PILImage where
  mode := img.mode
  width := (r - l).toNat
  height := (b - u).toNat
  px := fun i j =>
    if 0 ≤ l + i ∧ l + i < (img.width : ℤ) ∧ 0 ≤ u + j ∧ u + j < (img.height : ℤ) then
      img.px (l + i) (u + j)
    else (0, 0, 0, 0)

/-- PIL Image.convert("RGB") (lines 470-471): the result's mode is RGB;
the color channels are kept and the alpha channel is dropped (normalised
to the opaque value). -/
def PILImage.convertRGB (img : PILImage) : PILImage where
  mode := PILMode.RGB
  width := img.width
  height := img.height
  px := fun i j => ((img.px i j).1, (img.px i j).2.1, (img.px i j).2.2.1, 255)

/-- The crop performed per page, lines 451-452:
x, y, w, h = self.crop_area; cropped = img.crop((x, y, x + w, y + h)). -/
def cropForPage (area : ℤ × ℤ × ℤ × ℤ) (img : PILImage) : PILImage :=
  match area with
  | (x, y, w, h) => img.crop x y (x + w) (y + h)

/-- Width of the intersection of the crop rectangle with the image's own
pixel bounds (the "overlap region" of the spec's crop contract). -/
def overlapWidth (area : ℤ × ℤ × ℤ × ℤ) (img : PILImage) : ℤ :=
  match area with
  | (x, _, w, _) => max 0 (min (x + w) (img.width : ℤ) - max x 0)

/-- Height of the intersection of the crop rectangle with the image's own
pixel bounds. -/
def overlapHeight (area : ℤ × ℤ × ℤ × ℤ) (img : PILImage) : ℤ :=
  match area with
  | (_, y, _, h) => max 0 (min (y + h) (img.height : ℤ) - max y 0)

/-! ### QRect (Qt geometry, as used by the snipping widget) -/

/-- Qt's QRect: stored as the two inclusive corners (x1, y1) and (x2, y2);
width = x2 - x1 + 1 and height = y2 - y1 + 1. -/
structure QRect where
  x1 : ℤ
  y1 : ℤ
  x2 : ℤ
  y2 : ℤ

/-- QRect(topLeft, bottomRight) from two points. -/
def QRect.fromPoints (p q : ℤ × ℤ) : QRect := ⟨p.1, p.2, q.1, q.2⟩

/-- QRect.width(). -/
def QRect.width (r : QRect) : ℤ := r.x2 - r.x1 + 1

/-- QRect.height(). -/
def QRect.height (r : QRect) : ℤ := r.y2 - r.y1 + 1

/-- QRect.x(). -/
def QRect.x (r : QRect) : ℤ := r.x1

/-- QRect.y(). -/
def QRect.y (r : QRect) : ℤ := r.y1

/-- QRect.isEmpty(): true iff x1 > x2 or y1 > y2, i.e. width <= 0 or
height <= 0. -/
def QRect.isEmpty (r : QRect) : Bool := decide (r.x2 < r.x1) || decide (r.y2 < r.y1)

/-- QRect.normalized(): returns a rectangle with nonnegative width and
height covering the same area; a corner pair in the wrong order is swapped
with the one-pixel adjustment of the Qt sources. -/
def QRect.normalized (r : QRect) : QRect :=
  let rx := if r.x2 < r.x1 then (r.x2 + 1, r.x1 - 1) else (r.x1, r.x2)
  let ry := if r.y2 < r.y1 then (r.y2 + 1, r.y1 - 1) else (r.y1, r.y2)
  ⟨rx.1, ry.1, rx.2, ry.2⟩

/-- Rectangle emitted by SnippingWidget.mouseReleaseEvent, lines 105-108:
QRect(self.begin, self.end).normalized(). -/
def snippedRect (pStart pEnd : ℤ × ℤ) : QRect := (QRect.fromPoints pStart pEnd).normalized

/-! ### UI state and handlers -/

/-- Status values passed to update_step. -/
inductive StepStatus where
  | pending
  | active
  | completed
deriving DecidableEq

/-- UI log lines (method log / log_signal of the GUI thread), one
constructor per distinct message. -/
inductive UILog where
  | startingProcess
  | selectingCropArea
  | cropAreaSelected
  | selectionCancelled
  | startingCapture
  | processStopping
  | adminWarning
deriving DecidableEq

/-- Mutable widget and flag state of the SuperCaptApp object that the
handlers below read or write. -/
structure AppState where
  crop_area : Option (ℤ × ℤ × ℤ × ℤ)
  is_capturing : Bool
  is_paused : Bool
  start_enabled : Bool
  pause_enabled : Bool
  stop_enabled : Bool
  pause_text : String
  progress_value : ℕ
  progress_text : String
  step_shown : ℤ × StepStatus

/-- Observable side effects of one UI handler invocation. -/
structure Effects where
  logs : List UILog := []
  steps : List (ℤ × StepStatus) := []
  selectorLaunched : Bool := false
  captureStarted : Bool := false

/-- reset_ui, lines 497-505. -/
def reset_ui (s : AppState) : AppState :=
  { s with
    start_enabled := true
    pause_enabled := false
    pause_text := "Pause"
    stop_enabled := false
    progress_value := 0
    progress_text := "Ready"
    step_shown := (-1, StepStatus.pending)
    is_capturing := false
    is_paused := false }

/-- start_process, lines 320-347: when the admin check fails, a warning box
is shown and the method returns before any state change or any launch of
the region selector; otherwise buttons are switched and the selector is
launched (select_crop_area, lines 349-357). -/
def start_process (is_admin : Bool) (s : AppState) : AppState × Effects :=
  if is_admin = false then
    (s, { logs := [UILog.adminWarning] })
  else
    ({ s with start_enabled := false, pause_enabled := true, stop_enabled := true },
     { logs := [UILog.startingProcess, UILog.selectingCropArea],
       steps := [(0, StepStatus.completed), (1, StepStatus.active)],
       selectorLaunched := true })

/-- on_area_selected, lines 359-368, with start_capture (lines 370-377)
inlined in the non-empty branch: a non-empty rectangle sets crop_area and
starts the capture thread; an empty one logs a cancellation and resets. -/
def on_area_selected (s : AppState) (rect : QRect) : AppState × Effects :=
  if rect.isEmpty = false then
    ({ s with
        crop_area := some (rect.x, rect.y, rect.width, rect.height)
        is_capturing := true },
     { logs := [UILog.cropAreaSelected, UILog.startingCapture],
       steps := [(1, StepStatus.completed), (2, StepStatus.active)],
       captureStarted := true })
  else
    (reset_ui s, { logs := [UILog.selectionCancelled] })

/-- stop_process after the operator confirms the dialog, lines 491-495:
is_capturing is cleared, a log line is emitted, and reset_ui runs. -/
def stop_process (s : AppState) : AppState × Effects :=
  (reset_ui { s with is_capturing := false }, { logs := [UILog.processStopping] })

/-- Guard of the pause busy-wait, line 405: while self.is_paused: sleep. -/
def pauseWaitCond (s : AppState) : Bool := s.is_paused

/-! ### Worker tasks -/

/-- Log lines emitted through log_signal by the two worker tasks, one
constructor per distinct message of the source. -/
inductive LogMsg where
  | folderCreated
  | focusPrompt
  | capturingPage (page total : ℕ)
  | stoppedByUser
  | phaseComplete
  | startCropPdf
  | stoppedDuringCropping
  | croppingComplete
  | noCroppedImagesError
  | pdfCreated
deriving DecidableEq

/-- Labels attached to progress_signal emissions. -/
inductive ProgLabel where
  | captured (page total : ℕ)
  | cropping (i total : ℕ)
  | creatingPdf
deriving DecidableEq

/-- Everything capture_pages_task reads from self and from the host:
the configured total (the spinbox clamps it to 1..9999, line 160), the
sequence of values returned by the successive reads of the shared
is_capturing flag (read once at the top of each iteration and once after
the loop), the screenshot returned for each page, the crop rectangle
selected earlier, and the shared is_paused flag. -/
structure RunEnv where
  total : ℕ
  flag : ℕ → Bool
  shot : ℕ → PILImage
  crop_area : ℤ × ℤ × ℤ × ℤ
  is_paused : Bool

/-- Observable outcome of capture_pages_task up to the crop handoff. -/
structure CaptureOut where
  saved : List (String × PILImage)
  logs : List LogMsg
  progress : List (ℕ × ProgLabel)
  cropStarted : Bool

/-- Loop body of capture_pages_task, lines 400-419, plus the post-loop
check of lines 421-424.  The first argument list holds the remaining page
numbers; the counter is the index of the next read of is_capturing. -/
def captureLoop (env : RunEnv) : List ℕ → ℕ → CaptureOut
  | [], r =>
    if env.flag r then
      { saved := [], logs := [LogMsg.phaseComplete], progress := [], cropStarted := true }
    else
      { saved := [], logs := [], progress := [], cropStarted := false }
  | page :: rest, r =>
    if env.flag r then
      let o := captureLoop env rest (r + 1)
      { saved := (pageFilename page, env.shot page) :: o.saved,
        logs := LogMsg.capturingPage page env.total :: o.logs,
        progress := (progressCapture page env.total, ProgLabel.captured page env.total) :: o.progress,
        cropStarted := o.cropStarted }
  else
      { saved := [], logs := [LogMsg.stoppedByUser], progress := [], cropStarted := false }

/-- capture_pages_task, lines 386-424 (the exception branch of lines
426-428 is outside this model, which assumes the host primitives do not
raise). -/
def captureTask (env : RunEnv) : CaptureOut :=
  { captureLoop env (List.range' 1 env.total) 0 with
    logs := LogMsg.folderCreated :: LogMsg.focusPrompt ::
      (captureLoop env (List.range' 1 env.total) 0).logs }

/-- Everything crop_and_create_pdf_task reads from self and the host: the
directory listing of the capture folder, the content of each file there,
the crop rectangle, the continued read sequence of is_capturing and the
(never consulted) is_paused flag. -/
structure CropEnv where
  listing : List String
  content : String → PILImage
  crop_area : ℤ × ℤ × ℤ × ℤ
  flag : ℕ → Bool
  is_paused : Bool

/-- Observable outcome of crop_and_create_pdf_task. -/
structure CropOut where
  croppedSaved : List (String × PILImage)
  progress : List (ℕ × ProgLabel)
  logs : List LogMsg
  pdf : Option (List PILImage)

/-- Contents of a directory modelled as an association list of filename
and image, looked up by filename (the default value is never reached when
the name is present). -/
def lookupImg (d : List (String × PILImage)) (f : String) : PILImage :=
  match d.find? (fun e => e.1 == f) with
  | some e => e.2
  | none => ⟨PILMode.RGB, 0, 0, fun _ _ => (0, 0, 0, 0)⟩

/-- Loop of crop_and_create_pdf_task, lines 442-456: per file, one read of
is_capturing, then the crop is computed and saved and one progress value
is emitted.  Returns the files written, the progress emitted, and whether
the loop ran to completion (false = stopped by a cleared flag). -/
def cropLoop (env : CropEnv) (ti : ℕ) :
    List String → ℕ → ℕ → List (String × PILImage) × List (ℕ × ProgLabel) × Bool
  | [], _, _ => ([], [], true)
  | fp :: rest, i, r =>
    if env.flag r then
      let o := cropLoop env ti rest (i + 1) (r + 1)
      ((fp, cropForPage env.crop_area (env.content fp)) :: o.1,
       (progressCrop i ti, ProgLabel.cropping i ti) :: o.2.1,
       o.2.2)
    else ([], [], false)

/-- crop_and_create_pdf_task, lines 430-480.  image_files is the sorted
.png listing of the capture folder (line 439).  After the loop, the
cropped folder (fresh, so it contains exactly the files the loop wrote) is
listed and sorted again (line 465; the common directory prefix of
os.path.join does not change the relative order), an empty listing raises
the ValueError caught at line 478, and otherwise every cropped file is
reopened, converted to RGB and handed to the PDF writer in order (lines
470-473).  The counter r0 is the index of the next read of is_capturing.
-/
def image_files (env : CropEnv) : List String :=
  pySorted (env.listing.filter (fun fp => pyEndsWith fp ".png"))

/-- Result of the crop loop of crop_and_create_pdf_task over image_files
(its written files, its progress emissions, and its completion flag). -/
def cropLoopOut (env : CropEnv) (r0 : ℕ) : List (String × PILImage) × List (ℕ × ProgLabel) × Bool :=
  cropLoop env (image_files env).length (image_files env) 1 r0

/-- Sorted listing of the cropped directory after the loop (line 465): the
directory is fresh, so it holds exactly the files the loop wrote. -/
def cropped_files (env : CropEnv) (r0 : ℕ) : List String :=
  pySorted ((cropLoopOut env r0).1.map Prod.fst)

def cropTask (env : CropEnv) (r0 : ℕ) : CropOut :=
  if (cropLoopOut env r0).2.2 = false then
    { croppedSaved := (cropLoopOut env r0).1, progress := (cropLoopOut env r0).2.1,
      logs := [LogMsg.startCropPdf, LogMsg.stoppedDuringCropping], pdf := none }
  else
    if (cropped_files env r0).isEmpty then
      { croppedSaved := (cropLoopOut env r0).1,
        progress := (cropLoopOut env r0).2.1 ++ [(95, ProgLabel.creatingPdf)],
        logs := [LogMsg.startCropPdf, LogMsg.croppingComplete, LogMsg.noCroppedImagesError],
        pdf := none }
    else
      { croppedSaved := (cropLoopOut env r0).1,
        progress := (cropLoopOut env r0).2.1 ++ [(95, ProgLabel.creatingPdf)],
        logs := [LogMsg.startCropPdf, LogMsg.croppingComplete, LogMsg.pdfCreated],
        pdf := some ((cropped_files env r0).map
          (fun fp => (lookupImg (cropLoopOut env r0).1 fp).convertRGB)) }

/-- The worker thread end to end: capture_pages_task followed, only when
the post-loop flag read succeeded, by crop_and_create_pdf_task on the
capture folder it wrote (line 424).  The capture folder is fresh (its name
carries the session timestamp), so its listing is exactly the files the
capture loop saved; after an uninterrupted capture the crop stage's reads
of is_capturing continue at index total + 1. -/
def cropEnvOf (env : RunEnv) : CropEnv :=
  { listing := (captureTask env).saved.map Prod.fst,
    content := lookupImg (captureTask env).saved,
    crop_area := env.crop_area,
    flag := env.flag,
    is_paused := env.is_paused }

def pipeline (env : RunEnv) : CaptureOut × Option CropOut :=
  if (captureTask env).cropStarted then
    (captureTask env, some (cropTask (cropEnvOf env) (env.total + 1)))
  else (captureTask env, none)

/-! ### Concrete sample data for instantiating the theorems -/

/-- Sample RGB image. -/
def demoImg : PILImage := ⟨PILMode.RGB, 4, 4, fun _ _ => (1, 2, 3, 255)⟩

/-- Sample RGBA image (a screenshot taken on a platform whose screen grab
returns RGBA). -/
def rgbaImg : PILImage := ⟨PILMode.RGBA, 4, 4, fun _ _ => (1, 2, 3, 128)⟩

/-- Sample uninterrupted three-page run. -/
def envRun3 : RunEnv := ⟨3, fun _ => true, fun _ => demoImg, (0, 0, 2, 2), false⟩

/-- Sample one-page run whose flag is cleared right after the first
capture (exactly one read of is_capturing returns true). -/
def envCancel1 : RunEnv := ⟨1, fun r => decide (r < 1), fun _ => demoImg, (0, 0, 2, 2), false⟩

/-- Sample two-page run cancelled after one page. -/
def envCancel2 : RunEnv := ⟨2, fun r => decide (r < 1), fun _ => demoImg, (0, 0, 2, 2), false⟩

/-- Sample crop environment: one captured file, rectangle reaching past
the 4x4 image. -/
def envCropOver : CropEnv :=
  ⟨["page_0001.png"], fun _ => demoImg, (2, 2, 5, 5), fun _ => true, false⟩

/-- Sample crop environment with an RGBA source image. -/
def envCropRGBA : CropEnv :=
  ⟨["page_0001.png"], fun _ => rgbaImg, (0, 0, 1, 1), fun _ => true, false⟩

/-- Sample idle UI state. -/
def idleState : AppState :=
  ⟨none, false, false, true, false, false, "Pause", 0, "Ready", (-1, StepStatus.pending)⟩

/-! ### Order lemmas for the string model -/

theorem lexLt_irrefl : ∀ l : List Char, lexLt l l = false
  | [] => rfl
  | a :: as => by simp [lexLt, lexLt_irrefl as]

theorem lexLt_trans : ∀ (l1 l2 l3 : List Char),
    lexLt l1 l2 = true → lexLt l2 l3 = true → lexLt l1 l3 = true := by
  intro l1
  induction l1 with
  | nil =>
    intro l2 l3 h12 h23
    cases l2 with
    | nil => simp [lexLt] at h12
    | cons b bs =>
      cases l3 with
      | nil => simp [lexLt] at h23
      | cons c cs => simp [lexLt]
  | cons a as ih =>
    intro l2 l3 h12 h23
    cases l2 with
    | nil => simp [lexLt] at h12
    | cons b bs =>
      cases l3 with
      | nil => simp [lexLt] at h23
      | cons c cs =>
        simp only [lexLt] at h12 h23 ⊢
        split_ifs at h12 h23 ⊢ <;>
          first
            | rfl
            | omega
            | (exact ih bs cs h12 h23)

theorem char_eq_of_toNat_eq {a b : Char} (h : a.toNat = b.toNat) : a = b :=
  Char.ext (UInt32.ext h)

theorem lexLt_total : ∀ (l1 l2 : List Char),
    lexLt l1 l2 = false → lexLt l2 l1 = true ∨ l1 = l2 := by
  intro l1
  induction l1 with
  | nil =>
    intro l2 h
    cases l2 with
    | nil => right; rfl
    | cons b bs => simp [lexLt] at h
  | cons a as ih =>
    intro l2 h
    cases l2 with
    | nil => left; simp [lexLt]
    | cons b bs =>
      simp only [lexLt] at h ⊢
      by_cases hab : a.toNat < b.toNat
      · simp [hab] at h
      · by_cases hba : b.toNat < a.toNat
        · left; simp [hba]
        · simp [hab, hba] at h ⊢
          rcases ih bs h with h' | h'
          · exact Or.inl h'
          · exact Or.inr ⟨char_eq_of_toNat_eq (by omega), h'⟩

theorem SLt_trans {s t u : String} (h1 : SLt s t) (h2 : SLt t u) : SLt s u :=
  lexLt_trans s.data t.data u.data h1 h2

theorem SLt_asymm {s t : String} (h : SLt s t) : strLt t s = false := by
  by_contra hc
  have h2 : SLt t s := by
    unfold SLt
    cases hts : strLt t s
    · exact absurd hts hc
    · rfl
  have h3 := SLt_trans h h2
  unfold SLt strLt at h3
  rw [lexLt_irrefl] at h3
  exact Bool.false_ne_true h3

theorem SLt_to_SLe {s t : String} (h : SLt s t) : SLe s t := SLt_asymm h

theorem SLe_antisymm {s t : String} (h1 : SLe s t) (h2 : SLe t s) : s = t := by
  unfold SLe strLt at h1 h2
  rcases lexLt_total s.data t.data h2 with h' | h'
  · rw [h1] at h'; exact absurd h' Bool.false_ne_true
  · exact String.ext h'

instance : IsTrans String SLe where
  trans := by
    intro a b c h1 h2
    unfold SLe at h1 h2 ⊢
    by_contra hc
    have hca : SLt c a := by
      unfold SLt
      cases h : strLt c a
      · exact absurd h hc
      · rfl
    rcases lexLt_total c.data b.data h2 with h' | h'
    · have h3 := SLt_trans h' hca
      unfold SLt at h3
      rw [h1] at h3
      exact Bool.false_ne_true h3
    · have hcb : c = b := String.ext h'
      rw [hcb] at hca
      unfold SLt at hca
      rw [h1] at hca
      exact Bool.false_ne_true hca

instance : IsTotal String SLe where
  total := by
    intro a b
    unfold SLe
    cases h : strLt b a
    · exact Or.inl rfl
    · exact Or.inr (SLt_asymm h)

instance : IsAntisymm String SLe where
  antisymm := fun _ _ h1 h2 => SLe_antisymm h1 h2

instance : IsRefl String SLe where
  refl := fun a => by unfold SLe strLt; exact lexLt_irrefl a.data

theorem pySorted_of_sorted {l : List String} (h : l.Sorted SLe) : pySorted l = l :=
  h.insertionSort_eq

theorem pySorted_sorted (l : List String) : (pySorted l).Sorted SLe :=
  List.sorted_insertionSort SLe l

theorem pySorted_of_perm {l m : List String} (hp : l.Perm m) (hm : m.Sorted SLe) :
    pySorted l = m :=
  List.eq_of_perm_of_sorted ((List.perm_insertionSort SLe l).trans hp) (pySorted_sorted l) hm

/-! ### Zero-padded filenames sort in page order -/

theorem toDigitsCore_acc (b : ℕ) :
    ∀ (f n : ℕ) (acc : List Char),
      Nat.toDigitsCore b f n acc = Nat.toDigitsCore b f n [] ++ acc := by
  intro f
  induction f with
  | zero => intro n acc; simp [Nat.toDigitsCore]
  | succ f ih =>
    intro n acc
    simp only [Nat.toDigitsCore]
    by_cases h : n / b = 0
    · simp [h]
    · simp only [if_neg h]
      rw [ih (n / b) (Nat.digitChar (n % b) :: acc), ih (n / b) [Nat.digitChar (n % b)]]
      simp

theorem toDigitsCore_fuel (b : ℕ) (hb : 2 ≤ b) :
    ∀ (f g n : ℕ), 1 ≤ f → 1 ≤ g → n < b ^ f → n < b ^ g →
      Nat.toDigitsCore b f n [] = Nat.toDigitsCore b g n [] := by
  intro f
  induction f with
  | zero => intro g n h1; omega
  | succ f ih =>
    intro g n _ hg1 hnf hng
    cases g with
    | zero => omega
    | succ g =>
      simp only [Nat.toDigitsCore]
      by_cases h : n / b = 0
      · simp [h]
      · simp only [if_neg h]
        rw [toDigitsCore_acc, toDigitsCore_acc b g]
        have hble : b ≤ n := by
          have hbpos : 0 < b := by omega
          have h1 : 1 ≤ n / b := Nat.one_le_iff_ne_zero.mpr h
          exact (Nat.one_le_div_iff hbpos).mp h1
        have hf1 : 1 ≤ f := by
          by_contra hf
          have hfz : f = 0 := by omega
          subst hfz
          simp [pow_one] at hnf
          omega
        have hg1' : 1 ≤ g := by
          by_contra hgz
          have hgz' : g = 0 := by omega
          subst hgz'
          simp [pow_one] at hng
          omega
        have hdivf : n / b < b ^ f := by
          apply Nat.div_lt_of_lt_mul
          rw [← pow_succ']
          exact hnf
        have hdivg : n / b < b ^ g := by
          apply Nat.div_lt_of_lt_mul
          rw [← pow_succ']
          exact hng
        rw [ih g (n / b) hf1 hg1' hdivf hdivg]

theorem toDigits_eq_core4 (n : ℕ) (h : n < 10000) :
    Nat.toDigits 10 n = Nat.toDigitsCore 10 4 n [] := by
  have hn : n < 10 ^ (n + 1) := by
    have h1 : n < 10 ^ n := Nat.lt_pow_self (by norm_num) n
    have h2 : 10 ^ n ≤ 10 ^ (n + 1) := Nat.pow_le_pow_right (by norm_num) (by omega)
    omega
  have h4 : n < 10 ^ 4 := by
    have he : (10 : ℕ) ^ 4 = 10000 := by norm_num
    omega
  unfold Nat.toDigits
  exact toDigitsCore_fuel 10 (by norm_num) (n + 1) 4 n (by omega) (by norm_num) hn h4

theorem toDigits_expand (n : ℕ) (h : n < 10000) :
    Nat.toDigits 10 n =
      (if 1000 ≤ n then [Nat.digitChar (n / 1000 % 10)] else []) ++
      (if 100 ≤ n then [Nat.digitChar (n / 100 % 10)] else []) ++
      (if 10 ≤ n then [Nat.digitChar (n / 10 % 10)] else []) ++
      [Nat.digitChar (n % 10)] := by
  rw [toDigits_eq_core4 n h]
  by_cases h10 : n < 10
  · simp only [Nat.toDigitsCore]
    rw [if_pos (by omega)]
    rw [if_neg (by omega), if_neg (by omega), if_neg (by omega)]
    simp
  · by_cases h100 : n < 100
    · simp only [Nat.toDigitsCore]
      rw [if_neg (by omega)]
      rw [show n / 10 / 10 = n / 100 by omega]
      rw [if_pos (by omega)]
      rw [if_neg (by omega), if_neg (by omega), if_pos (by omega)]
      simp
    · by_cases h1000 : n < 1000
      · simp only [Nat.toDigitsCore]
        rw [if_neg (by omega)]
        rw [show n / 10 / 10 = n / 100 by omega]
        rw [if_neg (by omega)]
        rw [show n / 100 / 10 = n / 1000 by omega]
        rw [if_pos (by omega)]
        rw [if_neg (by omega), if_pos (by omega), if_pos (by omega)]
        simp [show n / 10 / 10 = n / 100 by omega]
      · simp only [Nat.toDigitsCore]
        rw [if_neg (by omega)]
        rw [show n / 10 / 10 = n / 100 by omega]
        rw [if_neg (by omega)]
        rw [show n / 100 / 10 = n / 1000 by omega]
        rw [if_neg (by omega)]
        rw [show n / 1000 / 10 = n / 10000 by omega]
        rw [if_pos (by omega)]
        rw [if_pos (by omega), if_pos (by omega), if_pos (by omega)]
        simp [show n / 10 / 10 = n / 100 by omega, show n / 100 / 10 = n / 1000 by omega]

theorem pad04_eq (n : ℕ) (h : n < 10000) :
    pad04 n = ⟨[Nat.digitChar (n / 1000 % 10), Nat.digitChar (n / 100 % 10),
                Nat.digitChar (n / 10 % 10), Nat.digitChar (n % 10)]⟩ := by
  unfold pad04
  rw [toDigits_expand n h]
  by_cases h10 : n < 10
  · rw [if_neg (by omega), if_neg (by omega), if_neg (by omega)]
    rw [show n / 1000 % 10 = 0 by omega, show n / 100 % 10 = 0 by omega,
      show n / 10 % 10 = 0 by omega]
    rfl
  · by_cases h100 : n < 100
    · rw [if_neg (by omega), if_neg (by omega), if_pos (by omega)]
      rw [show n / 1000 % 10 = 0 by omega, show n / 100 % 10 = 0 by omega]
      rfl
    · by_cases h1000 : n < 1000
      · rw [if_neg (by omega), if_pos (by omega), if_pos (by omega)]
        rw [show n / 1000 % 10 = 0 by omega]
        rfl
      · rw [if_pos (by omega), if_pos (by omega), if_pos (by omega)]
        rfl

theorem digitChar_toNat_lt :
    ∀ x : ℕ, x < 10 → ∀ y : ℕ, y < 10 → x < y →
      (Nat.digitChar x).toNat < (Nat.digitChar y).toNat := by decide

theorem lexLt_cons_self (c : Char) (xs ys : List Char) :
    lexLt (c :: xs) (c :: ys) = lexLt xs ys := by
  simp [lexLt]

theorem lexLt_cons_lt {c e : Char} (h : c.toNat < e.toNat) (xs ys : List Char) :
    lexLt (c :: xs) (e :: ys) = true := by
  simp [lexLt, h]

theorem lexLt_append_same (p : List Char) (xs ys : List Char) :
    lexLt (p ++ xs) (p ++ ys) = lexLt xs ys := by
  induction p with
  | nil => rfl
  | cons c cs ih => simp only [List.cons_append, lexLt_cons_self, ih]

theorem lexLt_append_of_lt :
    ∀ (x1 x2 : List Char), x1.length = x2.length → lexLt x1 x2 = true →
      ∀ (u v : List Char), lexLt (x1 ++ u) (x2 ++ v) = true := by
  intro x1
  induction x1 with
  | nil =>
    intro x2 hlen h
    cases x2 with
    | nil => simp [lexLt] at h
    | cons b bs => simp at hlen
  | cons a as ih =>
    intro x2 hlen h
    cases x2 with
    | nil => simp at hlen
    | cons b bs =>
      intro u v
      simp only [lexLt] at h
      simp only [List.cons_append, lexLt]
      by_cases hab : a.toNat < b.toNat
      · simp [hab]
      · by_cases hba : b.toNat < a.toNat
        · simp [hab, hba] at h
        · simp only [if_neg hab, if_neg hba] at h ⊢
          exact ih bs (by simpa using hlen) h u v

theorem pad04_lt {a b : ℕ} (hab : a < b) (hb : b < 10000) :
    lexLt (pad04 a).data (pad04 b).data = true := by
  rw [pad04_eq a (by omega), pad04_eq b hb]
  show lexLt [Nat.digitChar (a / 1000 % 10), Nat.digitChar (a / 100 % 10),
      Nat.digitChar (a / 10 % 10), Nat.digitChar (a % 10)]
      [Nat.digitChar (b / 1000 % 10), Nat.digitChar (b / 100 % 10),
      Nat.digitChar (b / 10 % 10), Nat.digitChar (b % 10)] = true
  by_cases c3 : a / 1000 < b / 1000
  · have h3 : a / 1000 % 10 < b / 1000 % 10 := by omega
    exact lexLt_cons_lt (digitChar_toNat_lt _ (by omega) _ (by omega) h3) _ _
  · have e3 : a / 1000 ≤ b / 1000 := Nat.div_le_div_right (Nat.le_of_lt hab)
    rw [show a / 1000 % 10 = b / 1000 % 10 by omega, lexLt_cons_self]
    by_cases c2 : a / 100 < b / 100
    · have h2 : a / 100 % 10 < b / 100 % 10 := by omega
      exact lexLt_cons_lt (digitChar_toNat_lt _ (by omega) _ (by omega) h2) _ _
    · have e2 : a / 100 ≤ b / 100 := Nat.div_le_div_right (Nat.le_of_lt hab)
      rw [show a / 100 % 10 = b / 100 % 10 by omega, lexLt_cons_self]
      by_cases c1 : a / 10 < b / 10
      · have h1 : a / 10 % 10 < b / 10 % 10 := by omega
        exact lexLt_cons_lt (digitChar_toNat_lt _ (by omega) _ (by omega) h1) _ _
      · have e1 : a / 10 ≤ b / 10 := Nat.div_le_div_right (Nat.le_of_lt hab)
        rw [show a / 10 % 10 = b / 10 % 10 by omega, lexLt_cons_self]
        have h0 : a % 10 < b % 10 := by omega
        exact lexLt_cons_lt (digitChar_toNat_lt _ (by omega) _ (by omega) h0) _ _

theorem pageFilename_lt {a b : ℕ} (hab : a < b) (hb : b ≤ 9999) :
    SLt (pageFilename a) (pageFilename b) := by
  unfold SLt strLt pageFilename
  rw [String.data_append, String.data_append, String.data_append, String.data_append]
  rw [List.append_assoc, List.append_assoc, lexLt_append_same]
  apply lexLt_append_of_lt
  · rw [pad04_eq a (by omega), pad04_eq b (by omega)]
    rfl
  · exact pad04_lt hab (by omega)

theorem pageFilename_pairwise {T : ℕ} (hT : T ≤ 9999) :
    ((List.range' 1 T).map pageFilename).Pairwise SLt := by
  rw [List.pairwise_map]
  apply List.Pairwise.imp_of_mem ?_ (List.pairwise_lt_range' 1 T)
  intro a b ha hb hab
  exact pageFilename_lt hab (by
    have := List.mem_range'_1.mp hb
    omega)

theorem pageFilename_sorted {T : ℕ} (hT : T ≤ 9999) :
    ((List.range' 1 T).map pageFilename).Sorted SLe :=
  (pageFilename_pairwise hT).imp (fun h => SLt_to_SLe h)

theorem pageFilename_nodup {T : ℕ} (hT : T ≤ 9999) :
    ((List.range' 1 T).map pageFilename).Nodup := by
  apply (pageFilename_pairwise hT).imp
  intro a b h
  intro he
  rw [he] at h
  unfold SLt strLt at h
  rw [lexLt_irrefl] at h
  exact Bool.false_ne_true h

/-! ### Behavior of the capture loop -/

theorem captureLoop_flagTrue (env : RunEnv) (hf : ∀ r, env.flag r = true) :
    ∀ (pages : List ℕ) (r : ℕ),
      (captureLoop env pages r).saved = pages.map (fun p => (pageFilename p, env.shot p)) ∧
      (captureLoop env pages r).progress =
        pages.map (fun p => (progressCapture p env.total, ProgLabel.captured p env.total)) ∧
      (captureLoop env pages r).logs =
        pages.map (fun p => LogMsg.capturingPage p env.total) ++ [LogMsg.phaseComplete] ∧
      (captureLoop env pages r).cropStarted = true := by
  intro pages
  induction pages with
  | nil => intro r; simp [captureLoop, hf r]
  | cons p rest ih =>
    intro r
    obtain ⟨h1, h2, h3, h4⟩ := ih (r + 1)
    simp [captureLoop, hf r, h1, h2, h3, h4]

theorem captureTask_flagTrue (env : RunEnv) (hf : ∀ r, env.flag r = true) :
    (captureTask env).saved =
      (List.range' 1 env.total).map (fun p => (pageFilename p, env.shot p)) ∧
    (captureTask env).progress =
      (List.range' 1 env.total).map
        (fun p => (progressCapture p env.total, ProgLabel.captured p env.total)) ∧
    (captureTask env).logs =
      LogMsg.folderCreated :: LogMsg.focusPrompt ::
        ((List.range' 1 env.total).map (fun p => LogMsg.capturingPage p env.total) ++
          [LogMsg.phaseComplete]) ∧
    (captureTask env).cropStarted = true := by
  obtain ⟨h1, h2, h3, h4⟩ := captureLoop_flagTrue env hf (List.range' 1 env.total) 0
  refine ⟨h1, h2, ?_, h4⟩
  show LogMsg.folderCreated :: LogMsg.focusPrompt ::
      (captureLoop env (List.range' 1 env.total) 0).logs = _
  rw [h3]

theorem captureLoop_cancel (env : RunEnv) (k : ℕ)
    (hf : ∀ r, env.flag r = decide (r < k)) :
    ∀ (m a : ℕ), 1 ≤ a →
      ((captureLoop env (List.range' a m) (a - 1)).saved =
        (List.range' a (min m (k + 1 - a))).map (fun p => (pageFilename p, env.shot p))) ∧
      ((captureLoop env (List.range' a m) (a - 1)).cropStarted = decide (a + m ≤ k)) ∧
      (LogMsg.stoppedByUser ∈ (captureLoop env (List.range' a m) (a - 1)).logs ↔
        1 ≤ m ∧ k + 2 ≤ a + m) := by
  intro m
  induction m with
  | zero =>
    intro a ha
    by_cases hak : a - 1 < k
    · have hd : env.flag (a - 1) = true := by rw [hf]; exact decide_eq_true hak
      refine ⟨?_, ?_, ?_⟩
      · show (captureLoop env [] (a - 1)).saved = _
        rw [show min 0 (k + 1 - a) = 0 by omega]
        simp [captureLoop, hd]
      · show (captureLoop env [] (a - 1)).cropStarted = _
        rw [show decide (a + 0 ≤ k) = true from decide_eq_true (by omega)]
        simp [captureLoop, hd]
      · show LogMsg.stoppedByUser ∈ (captureLoop env [] (a - 1)).logs ↔ _
        simp [captureLoop, hd]
    · have hd : env.flag (a - 1) = false := by rw [hf]; exact decide_eq_false hak
      refine ⟨?_, ?_, ?_⟩
      · show (captureLoop env [] (a - 1)).saved = _
        rw [show min 0 (k + 1 - a) = 0 by omega]
        simp [captureLoop, hd]
      · show (captureLoop env [] (a - 1)).cropStarted = _
        rw [show decide (a + 0 ≤ k) = false from decide_eq_false (by omega)]
        simp [captureLoop, hd]
      · show LogMsg.stoppedByUser ∈ (captureLoop env [] (a - 1)).logs ↔ _
        simp [captureLoop, hd]
  | succ m ih =>
    intro a ha
    rw [List.range'_succ]
    by_cases hak : a ≤ k
    · have hd : env.flag (a - 1) = true := by rw [hf]; exact decide_eq_true (by omega)
      obtain ⟨h1, h2, h3⟩ := ih (a + 1) (by omega)
      have hidx : a + 1 - 1 = (a - 1) + 1 := by omega
      rw [hidx] at h1 h2 h3
      refine ⟨?_, ?_, ?_⟩
      · show (captureLoop env (a :: List.range' (a + 1) m) (a - 1)).saved = _
        rw [show min (m + 1) (k + 1 - a) = (min m (k + 1 - (a + 1))) + 1 by omega,
          List.range'_succ]
        simp [captureLoop, hd, h1]
      · show (captureLoop env (a :: List.range' (a + 1) m) (a - 1)).cropStarted = _
        rw [show decide (a + (m + 1) ≤ k) = decide ((a + 1) + m ≤ k) from
          decide_eq_decide.mpr (by omega)]
        simp [captureLoop, hd, h2]
      · show LogMsg.stoppedByUser ∈
            (captureLoop env (a :: List.range' (a + 1) m) (a - 1)).logs ↔ _
        simp only [captureLoop, hd, if_true, List.mem_cons]
        rw [show ((LogMsg.stoppedByUser ∈
            (captureLoop env (List.range' (a + 1) m) (a - 1 + 1)).logs) ↔ _) from h3]
        constructor
        · intro hc
          rcases hc with hc | hc
          · exact absurd hc (by simp)
          · omega
        · intro hc
          right
          omega
    · have hd : env.flag (a - 1) = false := by rw [hf]; exact decide_eq_false (by omega)
      refine ⟨?_, ?_, ?_⟩
      · show (captureLoop env (a :: List.range' (a + 1) m) (a - 1)).saved = _
        rw [show min (m + 1) (k + 1 - a) = 0 by omega]
        simp [captureLoop, hd]
      · show (captureLoop env (a :: List.range' (a + 1) m) (a - 1)).cropStarted = _
        rw [show decide (a + (m + 1) ≤ k) = false from decide_eq_false (by omega)]
        simp [captureLoop, hd]
      · show LogMsg.stoppedByUser ∈
            (captureLoop env (a :: List.range' (a + 1) m) (a - 1)).logs ↔ _
        simp [captureLoop, hd]
        omega

theorem captureTask_cancel (env : RunEnv) (k : ℕ)
    (hf : ∀ r, env.flag r = decide (r < k)) :
    ((captureTask env).saved =
      (List.range' 1 (min env.total k)).map (fun p => (pageFilename p, env.shot p))) ∧
    ((captureTask env).cropStarted = decide (env.total < k)) ∧
    (LogMsg.stoppedByUser ∈ (captureTask env).logs ↔
      1 ≤ env.total ∧ k + 1 ≤ env.total) := by
  obtain ⟨h1, h2, h3⟩ := captureLoop_cancel env k hf env.total 1 (by omega)
  refine ⟨?_, ?_, ?_⟩
  · show (captureLoop env (List.range' 1 env.total) 0).saved = _
    rw [show (0 : ℕ) = 1 - 1 from rfl, h1]
    rw [show min env.total (k + 1 - 1) = min env.total k by omega]
  · show (captureLoop env (List.range' 1 env.total) 0).cropStarted = _
    rw [show (0 : ℕ) = 1 - 1 from rfl, h2]
    exact decide_eq_decide.mpr (by omega)
  · show LogMsg.stoppedByUser ∈ LogMsg.folderCreated :: LogMsg.focusPrompt ::
      (captureLoop env (List.range' 1 env.total) 0).logs ↔ _
    simp only [List.mem_cons]
    rw [show (0 : ℕ) = 1 - 1 from rfl, h3]
    constructor
    · intro hc
      rcases hc with hc | hc | hc
      · exact absurd hc (by simp)
      · exact absurd hc (by simp)
      · omega
    · intro hc
      right; right
      omega

/-! ### Directory lookups -/

theorem lookupImg_self_key (g : String → PILImage) :
    ∀ (l : List String) (fp : String), fp ∈ l →
      lookupImg (l.map (fun q => (q, g q))) fp = g fp := by
  intro l
  induction l with
  | nil => intro fp hfp; simp at hfp
  | cons q rest ih =>
    intro fp hfp
    by_cases hq : (q == fp) = true
    · have hq' : q = fp := eq_of_beq hq
      subst hq'
      simp [lookupImg, List.find?]
    · have hqf : (q == fp) = false := Bool.eq_false_iff.mpr hq
      have hfp' : fp ∈ rest := by
        rcases List.mem_cons.mp hfp with h | h
        · subst h
          rw [beq_self_eq_true] at hqf
          exact absurd hqf (by simp)
        · exact h
      have hrest := ih fp hfp'
      simp only [lookupImg, List.map_cons, List.find?, hqf] at hrest ⊢
      exact hrest

theorem lookupImg_map_inj (val : ℕ → PILImage) (key : ℕ → String) :
    ∀ (l : List ℕ) (p : ℕ), p ∈ l → (∀ q ∈ l, key q = key p → q = p) →
      lookupImg (l.map (fun q => (key q, val q))) (key p) = val p := by
  intro l
  induction l with
  | nil => intro p hp; simp at hp
  | cons q rest ih =>
    intro p hp hinj
    by_cases hq : (key q == key p) = true
    · have hq' : q = p := hinj q (List.mem_cons_self q rest) (eq_of_beq hq)
      subst hq'
      simp [lookupImg, List.find?]
    · have hqf : (key q == key p) = false := Bool.eq_false_iff.mpr hq
      have hp' : p ∈ rest := by
        rcases List.mem_cons.mp hp with h | h
        · subst h
          rw [beq_self_eq_true] at hqf
          exact absurd hqf (by simp)
        · exact h
      have hrest := ih p hp' (fun s hs he => hinj s (List.mem_cons_of_mem q hs) he)
      simp only [lookupImg, List.map_cons, List.find?, hqf] at hrest ⊢
      exact hrest

/-! ### Behavior of the crop loop and crop task -/

theorem cropLoop_flagTrue (env : CropEnv) (ti : ℕ) (hf : ∀ r, env.flag r = true) :
    ∀ (files : List String) (i r : ℕ),
      cropLoop env ti files i r =
        (files.map (fun fp => (fp, cropForPage env.crop_area (env.content fp))),
         (List.range' i files.length).map
           (fun j => (progressCrop j ti, ProgLabel.cropping j ti)),
         true) := by
  intro files
  induction files with
  | nil => intro i r; simp [cropLoop]
  | cons fp rest ih =>
    intro i r
    simp only [cropLoop, hf r, if_true, ih (i + 1) (r + 1)]
    simp [List.range'_succ]

theorem cropLoopOut_flagTrue (env : CropEnv) (r0 : ℕ) (hf : ∀ r, env.flag r = true) :
    cropLoopOut env r0 =
      ((image_files env).map (fun fp => (fp, cropForPage env.crop_area (env.content fp))),
       (List.range' 1 (image_files env).length).map
         (fun j => (progressCrop j (image_files env).length,
           ProgLabel.cropping j (image_files env).length)),
       true) := by
  unfold cropLoopOut
  rw [cropLoop_flagTrue env (image_files env).length hf (image_files env) 1 r0]

theorem cropped_files_flagTrue (env : CropEnv) (r0 : ℕ) (hf : ∀ r, env.flag r = true) :
    cropped_files env r0 = image_files env := by
  unfold cropped_files
  rw [cropLoopOut_flagTrue env r0 hf]
  show pySorted (((image_files env).map
    (fun fp => (fp, cropForPage env.crop_area (env.content fp)))).map Prod.fst) = _
  rw [List.map_map]
  have hmap : (image_files env).map
      (Prod.fst ∘ fun fp => (fp, cropForPage env.crop_area (env.content fp))) =
      image_files env :=
    List.map_id'' (fun x => rfl) _
  rw [hmap]
  exact pySorted_of_sorted (pySorted_sorted _)

theorem cropTask_flagTrue (env : CropEnv) (r0 : ℕ) (hf : ∀ r, env.flag r = true) :
    (cropTask env r0).croppedSaved =
      (image_files env).map (fun fp => (fp, cropForPage env.crop_area (env.content fp))) ∧
    (cropTask env r0).progress =
      ((List.range' 1 (image_files env).length).map
        (fun j => (progressCrop j (image_files env).length,
          ProgLabel.cropping j (image_files env).length)) ++ [(95, ProgLabel.creatingPdf)]) ∧
    (cropTask env r0).pdf =
      (if (image_files env).isEmpty then none
       else some ((image_files env).map
         (fun fp => (cropForPage env.crop_area (env.content fp)).convertRGB))) := by
  have hout := cropLoopOut_flagTrue env r0 hf
  have hcf := cropped_files_flagTrue env r0 hf
  have h22 : (cropLoopOut env r0).2.2 = true := by rw [hout]
  have h1 : (cropLoopOut env r0).1 =
      (image_files env).map (fun fp => (fp, cropForPage env.crop_area (env.content fp))) := by
    rw [hout]
  have h21 : (cropLoopOut env r0).2.1 =
      (List.range' 1 (image_files env).length).map
        (fun j => (progressCrop j (image_files env).length,
          ProgLabel.cropping j (image_files env).length)) := by
    rw [hout]
  by_cases hempty : (image_files env).isEmpty
  · have hres : cropTask env r0 =
        { croppedSaved := (cropLoopOut env r0).1,
          progress := (cropLoopOut env r0).2.1 ++ [(95, ProgLabel.creatingPdf)],
          logs := [LogMsg.startCropPdf, LogMsg.croppingComplete, LogMsg.noCroppedImagesError],
          pdf := none } := by
      unfold cropTask
      rw [h22]
      rw [if_neg (by simp)]
      rw [if_pos (by rw [hcf]; exact hempty)]
    rw [hres]
    refine ⟨?_, ?_, ?_⟩
    · show (cropLoopOut env r0).1 = _
      exact h1
    · show (cropLoopOut env r0).2.1 ++ [(95, ProgLabel.creatingPdf)] = _
      rw [h21]
    · show (none : Option (List PILImage)) = _
      rw [if_pos hempty]
  · have hres : cropTask env r0 =
        { croppedSaved := (cropLoopOut env r0).1,
          progress := (cropLoopOut env r0).2.1 ++ [(95, ProgLabel.creatingPdf)],
          logs := [LogMsg.startCropPdf, LogMsg.croppingComplete, LogMsg.pdfCreated],
          pdf := some ((cropped_files env r0).map
            (fun fp => (lookupImg (cropLoopOut env r0).1 fp).convertRGB)) } := by
      unfold cropTask
      rw [h22]
      rw [if_neg (by simp)]
      rw [if_neg (by rw [hcf]; exact hempty)]
    rw [hres]
    refine ⟨?_, ?_, ?_⟩
    · show (cropLoopOut env r0).1 = _
      exact h1
    · show (cropLoopOut env r0).2.1 ++ [(95, ProgLabel.creatingPdf)] = _
      rw [h21]
    · show some ((cropped_files env r0).map
          (fun fp => (lookupImg (cropLoopOut env r0).1 fp).convertRGB)) = _
      rw [if_neg hempty, hcf, h1]
      congr 1
      apply List.map_congr_left
      intro fp hfp
      rw [lookupImg_self_key (fun q => cropForPage env.crop_area (env.content q)) _ fp hfp]

/-! ### The capture filenames pass the .png filter -/

theorem isPrefixOf_append_self (l1 l3 : List Char) : l1.isPrefixOf (l1 ++ l3) = true := by
  induction l1 with
  | nil => simp [List.isPrefixOf]
  | cons a as ih => simp [List.isPrefixOf, ih]

theorem isSuffixOf_append_self (l1 l2 : List Char) : l1.isSuffixOf (l2 ++ l1) = true := by
  unfold List.isSuffixOf
  rw [List.reverse_append]
  exact isPrefixOf_append_self l1.reverse l2.reverse

theorem pageFilename_endsWith (p : ℕ) : pyEndsWith (pageFilename p) ".png" = true := by
  unfold pyEndsWith pageFilename
  rw [String.data_append]
  exact isSuffixOf_append_self ".png".data ("page_" ++ pad04 p).data

/-! ### The uninterrupted pipeline -/

theorem image_files_of_run (env : RunEnv) (hf : ∀ r, env.flag r = true)
    (hT : env.total ≤ 9999) :
    image_files (cropEnvOf env) = (List.range' 1 env.total).map pageFilename := by
  obtain ⟨h1, _, _, _⟩ := captureTask_flagTrue env hf
  unfold image_files cropEnvOf
  rw [h1, List.map_map]
  have hmap : (List.range' 1 env.total).map
      (Prod.fst ∘ fun p => (pageFilename p, env.shot p)) =
      (List.range' 1 env.total).map pageFilename :=
    List.map_congr_left (fun p _ => rfl)
  rw [hmap]
  have hfilter : ((List.range' 1 env.total).map pageFilename).filter
      (fun fp => pyEndsWith fp ".png") = (List.range' 1 env.total).map pageFilename := by
    apply List.filter_eq_self.mpr
    intro fp hfp
    obtain ⟨p, _, hpe⟩ := List.mem_map.mp hfp
    rw [← hpe]
    exact pageFilename_endsWith p
  rw [hfilter]
  exact pySorted_of_sorted (pageFilename_sorted hT)

theorem content_of_run (env : RunEnv) (hf : ∀ r, env.flag r = true)
    (hT : env.total ≤ 9999) (p : ℕ) (hp : p ∈ List.range' 1 env.total) :
    (cropEnvOf env).content (pageFilename p) = env.shot p := by
  obtain ⟨h1, _, _, _⟩ := captureTask_flagTrue env hf
  show lookupImg (captureTask env).saved (pageFilename p) = env.shot p
  rw [h1]
  apply lookupImg_map_inj env.shot pageFilename (List.range' 1 env.total) p hp
  intro q hq he
  by_contra hne
  have hq9 : q ≤ 9999 := by
    have := List.mem_range'_1.mp hq
    omega
  have hp9 : p ≤ 9999 := by
    have := List.mem_range'_1.mp hp
    omega
  rcases Nat.lt_or_ge q p with h | h
  · have := pageFilename_lt h hp9
    rw [he] at this
    unfold SLt strLt at this
    rw [lexLt_irrefl] at this
    exact Bool.false_ne_true this
  · have hlt : p < q := by omega
    have := pageFilename_lt hlt hq9
    rw [he] at this
    unfold SLt strLt at this
    rw [lexLt_irrefl] at this
    exact Bool.false_ne_true this

theorem pipeline_flagTrue (env : RunEnv) (hf : ∀ r, env.flag r = true)
    (hT : env.total ≤ 9999) :
    (pipeline env).1 = captureTask env ∧
    (pipeline env).2 = some (cropTask (cropEnvOf env) (env.total + 1)) ∧
    (cropTask (cropEnvOf env) (env.total + 1)).croppedSaved =
      (List.range' 1 env.total).map
        (fun p => (pageFilename p, cropForPage env.crop_area (env.shot p))) ∧
    (cropTask (cropEnvOf env) (env.total + 1)).pdf =
      (if env.total = 0 then none
       else some ((List.range' 1 env.total).map
         (fun p => (cropForPage env.crop_area (env.shot p)).convertRGB))) := by
  obtain ⟨hs, hpr, hlg, hcs⟩ := captureTask_flagTrue env hf
  have hflag' : ∀ r, (cropEnvOf env).flag r = true := fun r => hf r
  obtain ⟨hc1, hc2, hc3⟩ := cropTask_flagTrue (cropEnvOf env) (env.total + 1) hflag'
  have hif : image_files (cropEnvOf env) = (List.range' 1 env.total).map pageFilename :=
    image_files_of_run env hf hT
  have harea : (cropEnvOf env).crop_area = env.crop_area := rfl
  refine ⟨?_, ?_, ?_, ?_⟩
  · unfold pipeline
    rw [hcs]
    simp
  · unfold pipeline
    rw [hcs]
    simp
  · rw [hc1, hif, List.map_map]
    apply List.map_congr_left
    intro p hp
    show (pageFilename p, cropForPage (cropEnvOf env).crop_area
      ((cropEnvOf env).content (pageFilename p))) = _
    rw [harea, content_of_run env hf hT p hp]
  · rw [hc3, hif]
    by_cases hT0 : env.total = 0
    · rw [if_pos ?_, if_pos hT0]
      rw [hT0]
      rfl
    · rw [if_neg ?_, if_neg hT0]
      · rw [List.map_map]
        congr 1
        apply List.map_congr_left
        intro p hp
        show (cropForPage (cropEnvOf env).crop_area
          ((cropEnvOf env).content (pageFilename p))).convertRGB = _
        rw [harea, content_of_run env hf hT p hp]
      · rw [List.isEmpty_iff]
        intro hemp
        have : env.total = 0 := by
          by_contra hne
          have h1 : (1 : ℕ) ∈ List.range' 1 env.total := List.mem_range'_1.mpr (by omega)
          have : pageFilename 1 ∈ (List.range' 1 env.total).map pageFilename :=
            List.mem_map.mpr ⟨1, h1, rfl⟩
          rw [hemp] at this
          exact absurd this (List.not_mem_nil _)
        exact absurd this hT0

/-! ### Error analysis of the binary64 progress model -/

theorem log2fuel_spec : ∀ (fuel n : ℕ), 1 ≤ n → n < 2 ^ fuel →
    2 ^ log2fuel fuel n ≤ n ∧ n < 2 ^ (log2fuel fuel n + 1) := by
  intro fuel
  induction fuel with
  | zero =>
    intro n h1 h2
    simp at h2
    omega
  | succ fuel ih =>
    intro n h1 h2
    by_cases h : 2 ≤ n
    · have hdiv : n / 2 < 2 ^ fuel := by
        rw [pow_succ] at h2
        omega
      have ih' := ih (n / 2) (by omega) hdiv
      simp only [log2fuel, if_pos h]
      have e1 : (2 : ℕ) ^ (log2fuel fuel (n / 2) + 1) = 2 ^ log2fuel fuel (n / 2) * 2 :=
        pow_succ 2 _
      have e2 : (2 : ℕ) ^ (log2fuel fuel (n / 2) + 1 + 1) =
          2 ^ (log2fuel fuel (n / 2) + 1) * 2 := pow_succ 2 _
      omega
    · simp only [log2fuel, if_neg h]
      simp
      omega

theorem natLog2_spec (n : ℕ) (h1 : 1 ≤ n) (h2 : n < 2 ^ 200) :
    2 ^ natLog2 n ≤ n ∧ n < 2 ^ (natLog2 n + 1) :=
  log2fuel_spec 200 n h1 h2

/-- Bracketing of a/b by the exponent E = natLog2 (a * 2^64 / b):
b * 2^E <= a * 2^64 < b * 2^(E+1). -/
theorem expBracket (a b : ℕ) (hb : 1 ≤ b) (hab : b ≤ a * 2 ^ 64) (ha : a < 2 ^ 130) :
    b * 2 ^ natLog2 (a * 2 ^ 64 / b) ≤ a * 2 ^ 64 ∧
      a * 2 ^ 64 < b * 2 ^ (natLog2 (a * 2 ^ 64 / b) + 1) := by
  set N := a * 2 ^ 64 / b with hN
  have hN1 : 1 ≤ N := (Nat.one_le_div_iff (by omega)).mpr hab
  have hNbound : N < 2 ^ 200 := by
    have h1 : N ≤ a * 2 ^ 64 := Nat.div_le_self _ _
    have h2 : a * 2 ^ 64 < 2 ^ 130 * 2 ^ 64 :=
      (mul_lt_mul_right (by positivity)).mpr ha
    have h3 : (2 : ℕ) ^ 130 * 2 ^ 64 = 2 ^ 194 := by
      rw [← pow_add]
    have h4 : (2 : ℕ) ^ 194 < 2 ^ 200 := Nat.pow_lt_pow_right (by norm_num) (by norm_num)
    omega
  obtain ⟨hlo, hhi⟩ := natLog2_spec N hN1 hNbound
  have hmlt : a * 2 ^ 64 % b < b := Nat.mod_lt _ (by omega)
  constructor
  · calc b * 2 ^ natLog2 N ≤ b * N := Nat.mul_le_mul_left b hlo
      _ ≤ a * 2 ^ 64 := by
          rw [mul_comm]
          exact Nat.div_mul_le_self _ _
  · calc a * 2 ^ 64 = b * N + a * 2 ^ 64 % b := (Nat.div_add_mod _ _).symm
      _ < b * N + b := Nat.add_lt_add_left hmlt _
      _ = b * (N + 1) := (Nat.mul_succ b N).symm
      _ ≤ b * 2 ^ (natLog2 N + 1) := Nat.mul_le_mul_left b hhi

/-- The round-half-even division is within one half of the exact quotient. -/
theorem rheDiv_err (x b : ℕ) (hb : 1 ≤ b) :
    |(rheDiv x b : ℚ) - (x : ℚ) / b| ≤ 1 / 2 := by
  have hbq : (0 : ℚ) < (b : ℚ) := by exact_mod_cast hb
  have hx : x = b * (x / b) + x % b := (Nat.div_add_mod x b).symm
  have hRb : x % b < b := Nat.mod_lt _ (by omega)
  have hrhe : rheDiv x b =
      (if 2 * (x % b) < b then x / b
       else if b < 2 * (x % b) then x / b + 1
       else if (x / b) % 2 = 0 then x / b else x / b + 1) := rfl
  generalize hQd : x / b = Q at hrhe hx
  generalize hRd : x % b = R at hrhe hx hRb
  have hxq : (x : ℚ) = (b : ℚ) * (Q : ℚ) + (R : ℚ) := by exact_mod_cast congrArg Nat.cast hx
  have hdiv : (x : ℚ) / b = (Q : ℚ) + (R : ℚ) / b := by
    rw [hxq]
    field_simp
    ring
  have hR0 : (0 : ℚ) ≤ (R : ℚ) / b := by positivity
  have hR1 : (R : ℚ) / b < 1 := by
    rw [div_lt_one hbq]
    exact_mod_cast hRb
  rw [hrhe, hdiv]
  by_cases h1 : 2 * R < b
  · have hrlt : (R : ℚ) / b < 1 / 2 := by
      rw [div_lt_div_iff₀ hbq (by norm_num : (0 : ℚ) < 2)]
      have h2 : (2 : ℚ) * (R : ℚ) < (b : ℚ) := by exact_mod_cast h1
      linarith
    rw [if_pos h1, abs_le]
    constructor <;> linarith
  · rw [if_neg h1]
    by_cases h2 : b < 2 * R
    · have hrgt : (1 : ℚ) / 2 < (R : ℚ) / b := by
        rw [div_lt_div_iff₀ (by norm_num : (0 : ℚ) < 2) hbq]
        have h3 : (b : ℚ) < 2 * (R : ℚ) := by exact_mod_cast h2
        linarith
      rw [if_pos h2, abs_le]
      push_cast
      constructor <;> linarith
    · have heq : 2 * R = b := by omega
      have hreq : (R : ℚ) / b = 1 / 2 := by
        rw [div_eq_div_iff (ne_of_gt hbq) (by norm_num : (2 : ℚ) ≠ 0)]
        have h3 : (2 : ℚ) * (R : ℚ) = (b : ℚ) := by exact_mod_cast heq
        linarith
      rw [if_neg h2]
      by_cases h3 : Q % 2 = 0
      · rw [if_pos h3, hreq, abs_le]
        constructor <;> linarith
      · rw [if_neg h3, hreq, abs_le]
        push_cast
        constructor <;> linarith

theorem rheDiv_ge (x b : ℕ) : x / b ≤ rheDiv x b := by
  show x / b ≤ (if 2 * (x % b) < b then x / b
    else if b < 2 * (x % b) then x / b + 1
    else if (x / b) % 2 = 0 then x / b else x / b + 1)
  split_ifs <;> omega

theorem natLog2_le_116 (a b : ℕ) (hb : 1 ≤ b) (hab : b ≤ a * 2 ^ 64)
    (ha130 : a < 2 ^ 130) (hq : a ≤ b * 2 ^ 52) :
    natLog2 (a * 2 ^ 64 / b) ≤ 116 := by
  set N := a * 2 ^ 64 / b with hN
  have hN1 : 1 ≤ N := (Nat.one_le_div_iff (by omega)).mpr hab
  have hN200 : N < 2 ^ 200 := by
    have h1 : N ≤ a * 2 ^ 64 := Nat.div_le_self _ _
    have h2 : a * 2 ^ 64 < 2 ^ 130 * 2 ^ 64 := (mul_lt_mul_right (by positivity)).mpr ha130
    have h3 : (2 : ℕ) ^ 130 * 2 ^ 64 = 2 ^ 194 := by rw [← pow_add]
    have h4 : (2 : ℕ) ^ 194 < 2 ^ 200 := Nat.pow_lt_pow_right (by norm_num) (by norm_num)
    omega
  have hN116 : N ≤ 2 ^ 116 := by
    have h2 : a * 2 ^ 64 ≤ b * 2 ^ 116 := by
      calc a * 2 ^ 64 ≤ b * 2 ^ 52 * 2 ^ 64 := Nat.mul_le_mul_right _ hq
        _ = b * 2 ^ 116 := by rw [mul_assoc, ← pow_add]
    calc N ≤ b * 2 ^ 116 / b := Nat.div_le_div_right h2
      _ = 2 ^ 116 := Nat.mul_div_cancel_left _ (by omega)
  have hlo := (natLog2_spec N hN1 hN200).1
  have : (2 : ℕ) ^ natLog2 N ≤ 2 ^ 116 := le_trans hlo hN116
  exact (Nat.pow_le_pow_iff_right (by norm_num)).mp this

theorem roundDoubleN_err (a b : ℕ) (ha : 1 ≤ a) (hb : 1 ≤ b) (hab : b ≤ a * 2 ^ 64)
    (ha130 : a < 2 ^ 130) (hq : a ≤ b * 2 ^ 52) :
    |((roundDoubleN a b).1 : ℚ) / ((roundDoubleN a b).2 : ℚ) - (a : ℚ) / b| ≤
      ((a : ℚ) / b) / 2 ^ 53 ∧
    2 ^ 52 ≤ (roundDoubleN a b).1 := by
  have hbq : (0 : ℚ) < (b : ℚ) := by exact_mod_cast hb
  set E := natLog2 (a * 2 ^ 64 / b) with hE
  have hE116 : E ≤ 116 := natLog2_le_116 a b hb hab ha130 hq
  have hs : dShift a b = 116 - E := rfl
  obtain ⟨hbr1, hbr2⟩ := expBracket a b hb hab ha130
  set s := dShift a b with hsd
  have hEs : E + s = 116 := by omega
  -- the scaled numerator is at least b * 2 ^ 52
  have hx52 : b * 2 ^ 52 ≤ a * 2 ^ s := by
    have h1 : b * 2 ^ E * 2 ^ s ≤ a * 2 ^ 64 * 2 ^ s := Nat.mul_le_mul_right _ hbr1
    have h2 : b * 2 ^ E * 2 ^ s = b * 2 ^ 116 := by rw [mul_assoc, ← pow_add, hEs]
    have h3 : b * 2 ^ 116 = b * 2 ^ 52 * 2 ^ 64 := by rw [mul_assoc, ← pow_add]
    have h4 : a * 2 ^ 64 * 2 ^ s = a * 2 ^ s * 2 ^ 64 := by ring
    rw [h2, h3, h4] at h1
    exact le_of_mul_le_mul_right h1 (by positivity)
  refine ⟨?_, ?_⟩
  · have herr := rheDiv_err (a * 2 ^ s) b hb
    have hm : (roundDoubleN a b).1 = rheDiv (a * 2 ^ s) b := rfl
    have hd : (roundDoubleN a b).2 = 2 ^ s := rfl
    rw [hm, hd]
    have hsq : (0 : ℚ) < 2 ^ s := by positivity
    have hid : (rheDiv (a * 2 ^ s) b : ℚ) / ((2 ^ s : ℕ) : ℚ) - (a : ℚ) / b =
        ((rheDiv (a * 2 ^ s) b : ℚ) - ((a * 2 ^ s : ℕ) : ℚ) / b) / 2 ^ s := by
      push_cast
      field_simp
      ring
    rw [hid, abs_div, abs_of_pos hsq]
    have hlow : (2 : ℚ) ^ E / 2 ^ 64 ≤ (a : ℚ) / b := by
      rw [div_le_div_iff₀ (by positivity) hbq]
      have hc : ((b : ℚ)) * 2 ^ E ≤ (a : ℚ) * 2 ^ 64 := by exact_mod_cast hbr1
      linarith
    have h1 : (2 : ℚ) ^ E / 2 ^ 64 * 2 ^ (s + 1) = 2 ^ 53 := by
      rw [div_mul_eq_mul_div, ← pow_add]
      rw [show E + (s + 1) = 117 by omega]
      rw [show (117 : ℕ) = 53 + 64 from rfl, pow_add]
      field_simp
    calc |(rheDiv (a * 2 ^ s) b : ℚ) - ((a * 2 ^ s : ℕ) : ℚ) / b| / 2 ^ s ≤
          (1 / 2) / 2 ^ s := (div_le_div_right hsq).mpr herr
      _ = 1 / 2 ^ (s + 1) := by rw [pow_succ]; ring
      _ ≤ ((a : ℚ) / b) / 2 ^ 53 := by
          rw [div_le_div_iff₀ (by positivity) (by positivity)]
          calc (1 : ℚ) * 2 ^ 53 = 2 ^ 53 := one_mul _
            _ = 2 ^ E / 2 ^ 64 * 2 ^ (s + 1) := h1.symm
            _ ≤ (a : ℚ) / b * 2 ^ (s + 1) :=
                mul_le_mul_of_nonneg_right hlow (by positivity)
  · have hge := rheDiv_ge (a * 2 ^ s) b
    have h52 : 2 ^ 52 ≤ a * 2 ^ s / b := by
      rw [Nat.le_div_iff_mul_le (by omega)]
      rw [mul_comm] at hx52
      exact hx52
    exact le_trans h52 hge

theorem dShift_le (a b : ℕ) : dShift a b ≤ 116 := Nat.sub_le _ _

theorem floatProg_errBound (c p t : ℕ) (hc1 : 1 ≤ c) (hc : c ≤ 50)
    (hp : 1 ≤ p) (hpt : p ≤ t) (ht : t ≤ 9999) :
    |((roundDoubleN (c * (roundDoubleN p t).1) (roundDoubleN p t).2).1 : ℚ) /
      ((roundDoubleN (c * (roundDoubleN p t).1) (roundDoubleN p t).2).2 : ℚ) -
      (c : ℚ) * p / t| ≤ 1 / 2 ^ 40 := by
  have ht1 : 1 ≤ t := le_trans hp hpt
  have htq : (0 : ℚ) < (t : ℚ) := by exact_mod_cast ht1
  obtain ⟨herr1, hm52⟩ := roundDoubleN_err p t hp ht1
    (by
      have h1 : t ≤ 2 ^ 64 := by
        calc t ≤ 9999 := ht
          _ ≤ 2 ^ 64 := by norm_num
      calc t ≤ 2 ^ 64 := h1
        _ ≤ p * 2 ^ 64 := Nat.le_mul_of_pos_left _ hp)
    (by
      calc p ≤ 9999 := le_trans hpt ht
        _ < 2 ^ 130 := by norm_num)
    (by
      calc p ≤ t := hpt
        _ ≤ t * 2 ^ 52 := Nat.le_mul_of_pos_right _ (by positivity))
  set m1 := (roundDoubleN p t).1 with hm1
  set d1 := (roundDoubleN p t).2 with hd1
  have hd1eq : d1 = 2 ^ dShift p t := rfl
  have hd1pos : 1 ≤ d1 := by rw [hd1eq]; exact Nat.one_le_two_pow
  have hd1q : (0 : ℚ) < (d1 : ℚ) := by exact_mod_cast hd1pos
  have hd116 : d1 ≤ 2 ^ 116 := by
    rw [hd1eq]
    exact Nat.pow_le_pow_right (by norm_num) (dShift_le p t)
  have hq0 : (0 : ℚ) < (p : ℚ) / t := by positivity
  have hq1 : (p : ℚ) / t ≤ 1 := by
    rw [div_le_one htq]
    exact_mod_cast hpt
  have hv1ub : (m1 : ℚ) / d1 ≤ 2 := by
    have h1 : (m1 : ℚ) / d1 - (p : ℚ) / t ≤ ((p : ℚ) / t) / 2 ^ 53 :=
      le_trans (le_abs_self _) herr1
    have h2 : ((p : ℚ) / t) / 2 ^ 53 ≤ 1 / 2 ^ 53 :=
      (div_le_div_right (show (0 : ℚ) < 2 ^ 53 by positivity)).mpr hq1
    have h3 : (1 : ℚ) / 2 ^ 53 ≤ 1 := by norm_num
    linarith
  have hm1le : m1 ≤ 2 * d1 := by
    have h1 : (m1 : ℚ) ≤ 2 * (d1 : ℚ) := by
      have h2 := (div_le_iff₀ hd1q).mp hv1ub
      linarith
    exact_mod_cast h1
  obtain ⟨herr2, hm52b⟩ := roundDoubleN_err (c * m1) d1
    (by
      have := Nat.mul_le_mul hc1 (le_trans (by norm_num : 1 ≤ 2 ^ 52) hm52)
      omega)
    hd1pos
    (by
      calc d1 ≤ 2 ^ 116 := hd116
        _ = 2 ^ 52 * 2 ^ 64 := by rw [← pow_add]
        _ ≤ m1 * 2 ^ 64 := Nat.mul_le_mul_right _ hm52
        _ ≤ c * m1 * 2 ^ 64 := Nat.mul_le_mul_right _ (Nat.le_mul_of_pos_left _ hc1))
    (by
      calc c * m1 ≤ 50 * (2 * d1) := Nat.mul_le_mul hc hm1le
        _ = 100 * d1 := by ring
        _ ≤ 100 * 2 ^ 116 := Nat.mul_le_mul_left _ hd116
        _ < 2 ^ 130 := by norm_num)
    (by
      calc c * m1 ≤ 50 * (2 * d1) := Nat.mul_le_mul hc hm1le
        _ = 100 * d1 := by ring
        _ ≤ 2 ^ 52 * d1 := Nat.mul_le_mul_right _ (by norm_num)
        _ = d1 * 2 ^ 52 := by ring)
  have hcv : ((c * m1 : ℕ) : ℚ) / (d1 : ℚ) = (c : ℚ) * ((m1 : ℚ) / d1) := by
    push_cast
    ring
  rw [hcv] at herr2
  have hcq0 : (0 : ℚ) ≤ (c : ℚ) := by positivity
  have hcq : (c : ℚ) ≤ 50 := by exact_mod_cast hc
  set v1 : ℚ := (m1 : ℚ) / d1 with hv1
  set v2 : ℚ := ((roundDoubleN (c * m1) d1).1 : ℚ) / ((roundDoubleN (c * m1) d1).2 : ℚ)
    with hv2
  have htri : |v2 - (c : ℚ) * p / t| ≤ |v2 - (c : ℚ) * v1| + |(c : ℚ) * v1 - (c : ℚ) * p / t| :=
    abs_sub_le v2 ((c : ℚ) * v1) ((c : ℚ) * p / t)
  have hsecond : |(c : ℚ) * v1 - (c : ℚ) * p / t| = (c : ℚ) * |v1 - (p : ℚ) / t| := by
    rw [show (c : ℚ) * v1 - (c : ℚ) * p / t = (c : ℚ) * (v1 - (p : ℚ) / t) by ring]
    rw [abs_mul, abs_of_nonneg hcq0]
  have hv1nn : 0 ≤ v1 := by positivity
  have hb1 : |v2 - (c : ℚ) * v1| ≤ ((c : ℚ) * v1) / 2 ^ 53 := herr2
  have hb2 : (c : ℚ) * |v1 - (p : ℚ) / t| ≤ 50 * (((p : ℚ) / t) / 2 ^ 53) := by
    apply mul_le_mul hcq herr1 (abs_nonneg _) (by norm_num)
  have hb3 : ((c : ℚ) * v1) / 2 ^ 53 ≤ 100 / 2 ^ 53 := by
    apply (div_le_div_right (show (0 : ℚ) < 2 ^ 53 by positivity)).mpr
    calc (c : ℚ) * v1 ≤ 50 * v1 := mul_le_mul_of_nonneg_right hcq hv1nn
      _ ≤ 50 * 2 := by linarith [hv1ub]
      _ = 100 := by norm_num
  have hb4 : (50 : ℚ) * (((p : ℚ) / t) / 2 ^ 53) ≤ 50 / 2 ^ 53 := by
    rw [show (50 : ℚ) / 2 ^ 53 = 50 * (1 / 2 ^ 53) by ring]
    apply mul_le_mul_of_nonneg_left _ (by norm_num)
    exact (div_le_div_right (show (0 : ℚ) < 2 ^ 53 by positivity)).mpr hq1
  calc |v2 - (c : ℚ) * p / t| ≤ |v2 - (c : ℚ) * v1| + |(c : ℚ) * v1 - (c : ℚ) * p / t| := htri
    _ ≤ 100 / 2 ^ 53 + 50 / 2 ^ 53 := by
        rw [hsecond]
        linarith
    _ ≤ 1 / 2 ^ 40 := by norm_num

theorem floatProg_bounds (c p t : ℕ) (hc1 : 1 ≤ c) (hc : c ≤ 50)
    (hp : 1 ≤ p) (hpt : p ≤ t) (ht : t ≤ 9999) :
    (floatProg c p t ≤ (c * p) / t ∧ (c * p) / t - 1 ≤ floatProg c p t) ∧
      (¬ t ∣ c * p → floatProg c p t = (c * p) / t) := by
  have ht1 : 1 ≤ t := le_trans hp hpt
  have htq : (0 : ℚ) < (t : ℚ) := by exact_mod_cast ht1
  have herr := floatProg_errBound c p t hc1 hc hp hpt ht
  set m2 := (roundDoubleN (c * (roundDoubleN p t).1) (roundDoubleN p t).2).1 with hm2
  set d2 := (roundDoubleN (c * (roundDoubleN p t).1) (roundDoubleN p t).2).2 with hd2
  have hfp : floatProg c p t = m2 / d2 := rfl
  have hd2pos : 1 ≤ d2 := by
    have : d2 = 2 ^ dShift (c * (roundDoubleN p t).1) (roundDoubleN p t).2 := rfl
    rw [this]
    exact Nat.one_le_two_pow
  have hd2q : (0 : ℚ) < (d2 : ℚ) := by exact_mod_cast hd2pos
  set n := (c * p) / t with hn
  set r := (c * p) % t with hr
  have hnr : c * p = t * n + r := (Nat.div_add_mod _ _).symm
  have hrt : r < t := Nat.mod_lt _ (by omega)
  have hexact : (c : ℚ) * p / t = (n : ℚ) + (r : ℚ) / t := by
    have h1 : (c : ℚ) * (p : ℚ) = (t : ℚ) * n + r := by exact_mod_cast congrArg Nat.cast hnr
    rw [h1]
    field_simp
    ring
  have hub : |(m2 : ℚ) / d2 - (c : ℚ) * p / t| ≤ 1 / 2 ^ 40 := herr
  have hsmall : (1 : ℚ) / 2 ^ 40 < 1 / 9999 := by norm_num
  have hinv : (1 : ℚ) / 9999 ≤ 1 / t := by
    apply one_div_le_one_div_of_le htq
    exact_mod_cast ht
  have hrub : (r : ℚ) / t ≤ 1 - 1 / t := by
    have h1 : (r : ℚ) ≤ (t : ℚ) - 1 := by
      have : (r : ℚ) + 1 ≤ t := by exact_mod_cast hrt
      linarith
    rw [div_le_iff₀ htq]
    have ht0 : (t : ℚ) ≠ 0 := ne_of_gt htq
    field_simp
    linarith
  have hvub : (m2 : ℚ) / d2 < (n : ℚ) + 1 := by
    have h1 : (m2 : ℚ) / d2 ≤ (c : ℚ) * p / t + 1 / 2 ^ 40 := by
      have := (abs_le.mp hub).2
      linarith
    rw [hexact] at h1
    linarith
  have hmain1 : floatProg c p t ≤ n := by
    rw [hfp]
    have h2 : m2 < (n + 1) * d2 := by
      have h3 : (m2 : ℚ) < ((n + 1 : ℕ) : ℚ) * d2 := by
        push_cast
        have := (div_lt_iff₀ hd2q).mp hvub
        linarith
      exact_mod_cast h3
    have := (Nat.div_lt_iff_lt_mul (by omega)).mpr h2
    omega
  refine ⟨⟨hmain1, ?_⟩, ?_⟩
  · by_cases hn0 : n = 0
    · rw [hn0]
      omega
    · have hvlb : ((n : ℚ) - 1) < (m2 : ℚ) / d2 := by
        have h1 : (c : ℚ) * p / t - 1 / 2 ^ 40 ≤ (m2 : ℚ) / d2 := by
          have := (abs_le.mp hub).1
          linarith
        rw [hexact] at h1
        have hr0 : (0 : ℚ) ≤ (r : ℚ) / t := by positivity
        linarith
      have h2 : (n - 1) * d2 < m2 := by
        have h3 : (((n - 1 : ℕ)) : ℚ) * d2 < m2 := by
          have hcast : (((n - 1 : ℕ)) : ℚ) = (n : ℚ) - 1 := by
            have : (1 : ℕ) ≤ n := by omega
            push_cast [Nat.cast_sub this]
            ring
          rw [hcast]
          exact (lt_div_iff₀ hd2q).mp hvlb
        exact_mod_cast h3
      rw [hfp]
      have := (Nat.le_div_iff_mul_le (show 0 < d2 by omega)).mpr (le_of_lt h2)
      omega
  · intro hnd
    have hr1 : 1 ≤ r := by
      rcases Nat.eq_zero_or_pos r with h | h
      · exfalso
        apply hnd
        exact Nat.dvd_of_mod_eq_zero h
      · exact h
    have hrq : (1 : ℚ) / t ≤ (r : ℚ) / t := by
      apply (div_le_div_right htq).mpr
      exact_mod_cast hr1
    have hvlb : (n : ℚ) < (m2 : ℚ) / d2 := by
      have h1 : (c : ℚ) * p / t - 1 / 2 ^ 40 ≤ (m2 : ℚ) / d2 := by
        have := (abs_le.mp hub).1
        linarith
      rw [hexact] at h1
      linarith
    have h2 : n * d2 < m2 := by
      have h3 : ((n : ℕ) : ℚ) * d2 < m2 := by
        have := (lt_div_iff₀ hd2q).mp hvlb
        linarith
      exact_mod_cast h3
    have hge : n ≤ m2 / d2 :=
      (Nat.le_div_iff_mul_le (show 0 < d2 by omega)).mpr (le_of_lt h2)
    rw [hfp]
    omega

theorem exact_floor_eq (c p t : ℕ) (ht : 1 ≤ t) :
    ⌊(c : ℚ) * p / t⌋ = ((c * p) / t : ℕ) := by
  have h1 : (c : ℚ) * p / t = ((c * p : ℕ) : ℚ) / ((t : ℕ) : ℚ) := by push_cast; ring
  rw [h1]
  rw [← Int.natCast_floor_eq_floor (by positivity)]
  rw [Nat.floor_div_nat]
  rw [Nat.floor_natCast]

/-! ### Auxiliary lemmas for the claims -/

theorem croppedSaved_eq_loopOut (env : CropEnv) (r0 : ℕ) :
    (cropTask env r0).croppedSaved = (cropLoopOut env r0).1 := by
  unfold cropTask
  split_ifs <;> rfl

theorem cropLoop_mem (env : CropEnv) (ti : ℕ) :
    ∀ (files : List String) (i r : ℕ) (fp : String) (im : PILImage),
      (fp, im) ∈ (cropLoop env ti files i r).1 →
      im = cropForPage env.crop_area (env.content fp) := by
  intro files
  induction files with
  | nil => intro i r fp im h; simp [cropLoop] at h
  | cons g rest ih =>
    intro i r fp im h
    by_cases hfl : env.flag r = true
    · simp only [cropLoop, hfl, if_true, List.mem_cons] at h
      rcases h with h | h
      · have h1 : fp = g := congrArg Prod.fst h
        have h2 : im = cropForPage env.crop_area (env.content g) := congrArg Prod.snd h
        rw [h2, h1]
      · exact ih (i + 1) (r + 1) fp im h
    · have hfl' : env.flag r = false := Bool.eq_false_iff.mpr hfl
      simp [cropLoop, hfl'] at h
  
theorem cropTask_mem (env : CropEnv) (r0 : ℕ) (fp : String) (im : PILImage)
    (h : (fp, im) ∈ (cropTask env r0).croppedSaved) :
    im = cropForPage env.crop_area (env.content fp) := by
  rw [croppedSaved_eq_loopOut] at h
  exact cropLoop_mem env _ _ 1 r0 fp im h

theorem cropForPage_mode (area : ℤ × ℤ × ℤ × ℤ) (img : PILImage) :
    (cropForPage area img).mode = img.mode := by
  obtain ⟨x, y, w, h⟩ := area
  rfl

theorem cropForPage_size (x y w h : ℤ) (img : PILImage) :
    (cropForPage (x, y, w, h) img).width = w.toNat ∧
    (cropForPage (x, y, w, h) img).height = h.toNat := by
  constructor
  · show (x + w - x).toNat = w.toNat
    congr 1
    ring
  · show (y + h - y).toNat = h.toNat
    congr 1
    ring

theorem cropTask_pdf_modes (env : CropEnv) (r0 : ℕ) (pages : List PILImage)
    (hp : (cropTask env r0).pdf = some pages) :
    ∀ im ∈ pages, im.mode = PILMode.RGB := by
  intro im him
  unfold cropTask at hp
  by_cases hA : (cropLoopOut env r0).2.2 = false
  · rw [if_pos hA] at hp
    exact absurd hp (by simp)
  · rw [if_neg hA] at hp
    by_cases hB : (cropped_files env r0).isEmpty
    · rw [if_pos hB] at hp
      exact absurd hp (by simp)
    · rw [if_neg hB] at hp
      have hpages := Option.some_inj.mp hp
      rw [← hpages] at him
      obtain ⟨fp, _, hfpe⟩ := List.mem_map.mp him
      rw [← hfpe]
      rfl

theorem cropLoop_pause_blind (l : List String) (c : String → PILImage)
    (a : ℤ × ℤ × ℤ × ℤ) (f : ℕ → Bool) (b1 b2 : Bool) (ti : ℕ) :
    ∀ (files : List String) (i r : ℕ),
      cropLoop ⟨l, c, a, f, b1⟩ ti files i r = cropLoop ⟨l, c, a, f, b2⟩ ti files i r := by
  intro files
  induction files with
  | nil => intro i r; rfl
  | cons fp rest ih =>
    intro i r
    simp only [cropLoop, ih (i + 1) (r + 1)]

/-! ### The claims -/

/-- C7: whenever the Region Selector returns a zero-area rectangle, the
outcome is identical to an explicit cancellation: on_area_selected takes
the cancellation branch, the UI is reset via reset_ui, the capturing flag
is false afterwards, and the capture thread is never started. -/
theorem C7_zero_area_is_cancel (s : AppState) (rect : QRect)
    (hz : rect.width * rect.height = 0) :
    on_area_selected s rect = (reset_ui s, { logs := [UILog.selectionCancelled] }) ∧
    (on_area_selected s rect).1.is_capturing = false ∧
    (on_area_selected s rect).2.captureStarted = false := by
  have hempty : rect.isEmpty = true := by
    unfold QRect.isEmpty
    rcases mul_eq_zero.mp hz with h | h
    · unfold QRect.width at h
      have hx : rect.x2 < rect.x1 := by omega
      simp [hx]
    · unfold QRect.height at h
      have hy : rect.y2 < rect.y1 := by omega
      simp [hy]
  have hres : on_area_selected s rect = (reset_ui s, { logs := [UILog.selectionCancelled] }) := by
    unfold on_area_selected
    rw [hempty]
    rfl
  exact ⟨hres, by rw [hres]; rfl, by rw [hres]⟩

/-- C7 witness: a rectangle whose corners came out of a one-pixel
leftward drag has width 0, and selecting it resets the idle state. -/
theorem C7_zero_area_is_cancel_witness :
    (QRect.mk 5 5 4 5).width * (QRect.mk 5 5 4 5).height = 0 ∧
    on_area_selected idleState (QRect.mk 5 5 4 5) =
      (reset_ui idleState, { logs := [UILog.selectionCancelled] }) ∧
    (on_area_selected idleState (QRect.mk 5 5 4 5)).1.is_capturing = false ∧
    (on_area_selected idleState (QRect.mk 5 5 4 5)).2.captureStarted = false :=
  ⟨by decide, C7_zero_area_is_cancel idleState (QRect.mk 5 5 4 5) (by decide)⟩

/-- C8: when the host process lacks administrative privilege, start_process
shows the warning and returns with the state unchanged: no region selection
is launched, no capture is started, and no transition out of Idle occurs. -/
theorem C8_no_admin_refuses (s : AppState) :
    start_process false s = (s, { logs := [UILog.adminWarning] }) ∧
    (start_process false s).1 = s ∧
    (start_process false s).2.selectorLaunched = false ∧
    (start_process false s).2.captureStarted = false := by
  refine ⟨rfl, rfl, rfl, rfl⟩

/-- C9: a confirmed stop clears both shared flags: after stop_process the
state has is_capturing = false and is_paused = false, so the pause
busy-wait condition of the worker (which tests only is_paused) is false
and a paused worker is unblocked to observe the cancellation. -/
theorem C9_stop_clears_both_flags (s : AppState) :
    (stop_process s).1.is_capturing = false ∧
    (stop_process s).1.is_paused = false ∧
    pauseWaitCond (stop_process s).1 = false := by
  refine ⟨rfl, rfl, rfl⟩

/-- C10: crop_and_create_pdf_task never reads is_paused: two runs of the
crop task over environments that differ only in the value of is_paused
produce identical results — the same persisted cropped images, the same
PDF, the same progress values and the same log lines. -/
theorem C10_crop_task_pause_blind (listing : List String) (content : String → PILImage)
    (area : ℤ × ℤ × ℤ × ℤ) (flag : ℕ → Bool) (r0 : ℕ) (b1 b2 : Bool) :
    cropTask ⟨listing, content, area, flag, b1⟩ r0 =
      cropTask ⟨listing, content, area, flag, b2⟩ r0 := by
  unfold cropTask cropped_files cropLoopOut image_files
  simp only [cropLoop_pause_blind listing content area flag b1 b2]

/-- C1: for every configured total page count T ≥ 1 (the spinbox clamps
the configured total to 1..9999), an uninterrupted run — every read of the
is_capturing flag returns true and no exception occurs — persists exactly
T page images under T distinct filenames in the capture directory, exactly
T cropped images under T distinct filenames in the cropped directory, and
produces a PDF with exactly T pages. -/
theorem C1_uninterrupted_run_counts (env : RunEnv) (hf : ∀ r, env.flag r = true)
    (hT1 : 1 ≤ env.total) (hT : env.total ≤ 9999) :
    ((pipeline env).1.saved.length = env.total ∧
      ((pipeline env).1.saved.map Prod.fst).Nodup) ∧
    (∃ co, (pipeline env).2 = some co ∧
      co.croppedSaved.length = env.total ∧
      (co.croppedSaved.map Prod.fst).Nodup ∧
      ∃ pages, co.pdf = some pages ∧ pages.length = env.total) := by
  obtain ⟨hp1, hp2, hp3, hp4⟩ := pipeline_flagTrue env hf hT
  obtain ⟨hs, _, _, _⟩ := captureTask_flagTrue env hf
  have hfst : ∀ (l : List ℕ) (g : ℕ → PILImage),
      ((l.map (fun p => (pageFilename p, g p))).map Prod.fst) = l.map pageFilename := by
    intro l g
    rw [List.map_map]
    exact List.map_congr_left (fun p _ => rfl)
  refine ⟨⟨?_, ?_⟩, ?_⟩
  · rw [hp1, hs, List.length_map, List.length_range']
  · rw [hp1, hs, hfst]
    exact pageFilename_nodup hT
  · refine ⟨cropTask (cropEnvOf env) (env.total + 1), hp2, ?_, ?_, ?_⟩
    · rw [hp3, List.length_map, List.length_range']
    · rw [hp3, hfst]
      exact pageFilename_nodup hT
    · refine ⟨(List.range' 1 env.total).map
        (fun p => (cropForPage env.crop_area (env.shot p)).convertRGB), ?_, ?_⟩
      · rw [hp4, if_neg (by omega)]
      · rw [List.length_map, List.length_range']

/-- C1 witness: a three-page uninterrupted run saves 3 page images, 3
cropped images, and a 3-page PDF. -/
theorem C1_uninterrupted_run_counts_witness :
    ((pipeline envRun3).1.saved.length = 3 ∧
      ((pipeline envRun3).1.saved.map Prod.fst).Nodup) ∧
    (∃ co, (pipeline envRun3).2 = some co ∧
      co.croppedSaved.length = 3 ∧
      (co.croppedSaved.map Prod.fst).Nodup ∧
      ∃ pages, co.pdf = some pages ∧ pages.length = 3) :=
  C1_uninterrupted_run_counts envRun3 (fun _ => rfl) (by decide) (by decide)

/-- C2: in an uninterrupted run the PDF page order equals the ascending
filename order of the cropped images, which equals the original capture
order: the PDF pages are exactly the cropped, converted captures of pages
1..T in order; the zero-padded filenames page_NNNN.png are strictly
increasing in the lexicographic order used by sorted(), so sorting them —
from any directory listing order — reproduces the capture order, because
the width-4 padding accommodates every configured total (at most 9999)
without truncation. -/
theorem C2_pdf_order_is_capture_order (env : RunEnv) (hf : ∀ r, env.flag r = true)
    (hT1 : 1 ≤ env.total) (hT : env.total ≤ 9999) :
    (∃ co, (pipeline env).2 = some co ∧
      co.pdf = some ((List.range' 1 env.total).map
        (fun p => (cropForPage env.crop_area (env.shot p)).convertRGB)) ∧
      co.croppedSaved.map Prod.fst = (List.range' 1 env.total).map pageFilename) ∧
    ((List.range' 1 env.total).map pageFilename).Pairwise SLt ∧
    pySorted ((List.range' 1 env.total).map pageFilename) =
      (List.range' 1 env.total).map pageFilename ∧
    (∀ listing : List String,
      listing.Perm ((List.range' 1 env.total).map pageFilename) →
      pySorted listing = (List.range' 1 env.total).map pageFilename) := by
  obtain ⟨hp1, hp2, hp3, hp4⟩ := pipeline_flagTrue env hf hT
  refine ⟨?_, pageFilename_pairwise hT, pySorted_of_sorted (pageFilename_sorted hT), ?_⟩
  · refine ⟨cropTask (cropEnvOf env) (env.total + 1), hp2, ?_, ?_⟩
    · rw [hp4, if_neg (by omega)]
    · rw [hp3, List.map_map]
      exact List.map_congr_left (fun p _ => rfl)
  · intro listing hperm
    exact pySorted_of_perm hperm (pageFilename_sorted hT)

/-- C2 witness: for a three-page run the PDF pages are the converted crops
of pages 1, 2, 3 in order, and sorting the filenames (also from a permuted
listing) reproduces that order. -/
theorem C2_pdf_order_is_capture_order_witness :
    (∃ co, (pipeline envRun3).2 = some co ∧
      co.pdf = some ((List.range' 1 3).map
        (fun p => (cropForPage (0, 0, 2, 2) demoImg).convertRGB)) ∧
      co.croppedSaved.map Prod.fst = (List.range' 1 3).map pageFilename) ∧
    ((List.range' 1 3).map pageFilename).Pairwise SLt ∧
    pySorted ((List.range' 1 3).map pageFilename) = (List.range' 1 3).map pageFilename ∧
    (∀ listing : List String,
      listing.Perm ((List.range' 1 3).map pageFilename) →
      pySorted listing = (List.range' 1 3).map pageFilename) :=
  C2_pdf_order_is_capture_order envRun3 (fun _ => rfl) (by decide) (by decide)

/-- C3 counterexample: with one configured page (T = 1) and the flag
cleared right after page 1 completed (k = T = 1, so the next flag read —
the post-loop check — returns false), exactly one page image is persisted
and the crop stage is never invoked, but the run does NOT report a stop:
the worker emits no "Capture stopped by user." line (and no completion
line either), refuting the claimed conclusion at k = T. -/
theorem C3_cancel_counterexample :
    (captureTask envCancel1).saved.length = 1 ∧
    (captureTask envCancel1).cropStarted = false ∧
    ¬ LogMsg.stoppedByUser ∈ (captureTask envCancel1).logs ∧
    ¬ LogMsg.phaseComplete ∈ (captureTask envCancel1).logs := by
  refine ⟨?_, by decide, by decide, by decide⟩
  decide

/-- C3 amended: if the shared flag is cleared after exactly k reads
returned true (1 ≤ k ≤ T), then pages 1..k are persisted — exactly k page
images — and the crop/assemble stage is never invoked; the worker reports
the stop ("Capture stopped by user.") if and only if k < T, i.e. iff the
cancellation is observed at a loop-top check; when k = T the post-loop
check observes it instead and the worker exits without any stop report. -/
theorem C3_cancel_behavior (env : RunEnv) (k : ℕ)
    (hf : ∀ r, env.flag r = decide (r < k)) (hk1 : 1 ≤ k) (hkT : k ≤ env.total) :
    (captureTask env).saved =
      (List.range' 1 k).map (fun p => (pageFilename p, env.shot p)) ∧
    (captureTask env).saved.length = k ∧
    (captureTask env).cropStarted = false ∧
    (pipeline env).2 = none ∧
    (LogMsg.stoppedByUser ∈ (captureTask env).logs ↔ k < env.total) := by
  obtain ⟨h1, h2, h3⟩ := captureTask_cancel env k hf
  have hmin : min env.total k = k := by omega
  rw [hmin] at h1
  have hcs : (captureTask env).cropStarted = false := by
    rw [h2]
    exact decide_eq_false (by omega)
  refine ⟨h1, ?_, hcs, ?_, ?_⟩
  · rw [h1, List.length_map, List.length_range']
  · unfold pipeline
    rw [hcs]
    rfl
  · rw [h3]
    omega

/-- C3 amended witness: a two-page run cancelled after one page persists
exactly one page image, skips the crop stage, and does report the stop. -/
theorem C3_cancel_behavior_witness :
    (captureTask envCancel2).saved =
      (List.range' 1 1).map (fun p => (pageFilename p, envCancel2.shot p)) ∧
    (captureTask envCancel2).saved.length = 1 ∧
    (captureTask envCancel2).cropStarted = false ∧
    (pipeline envCancel2).2 = none ∧
    (LogMsg.stoppedByUser ∈ (captureTask envCancel2).logs ↔ 1 < envCancel2.total) :=
  C3_cancel_behavior envCancel2 1 (fun _ => rfl) (by decide) (by decide)

/-- C4 counterexample: for a 4x4 image and the crop rectangle (2, 2, 5, 5)
— extending past the image's edge — the crop performed at lines 451-452
yields an image of size 5x5, while the overlap of the rectangle with the
image bounds is only 2x2: the persisted cropped image is strictly larger
than the overlap region, refuting that the code intersects the rectangle
with the image's bounds. -/
theorem C4_crop_counterexample :
    ("page_0001.png", cropForPage (2, 2, 5, 5) demoImg) ∈
      (cropTask envCropOver 1).croppedSaved ∧
    (cropForPage (2, 2, 5, 5) demoImg).width = 5 ∧
    (cropForPage (2, 2, 5, 5) demoImg).height = 5 ∧
    overlapWidth (2, 2, 5, 5) demoImg = 2 ∧
    overlapHeight (2, 2, 5, 5) demoImg = 2 ∧
    ¬ ((cropForPage (2, 2, 5, 5) demoImg).width ≤ 2 ∧
       (cropForPage (2, 2, 5, 5) demoImg).height ≤ 2) := by
  refine ⟨List.mem_singleton.mpr rfl, by decide, by decide, by decide, by decide, by decide⟩

/-- C4 amended: the Crop & Assemble Stage crops each image to exactly the
rectangle (x, y, x+w, y+h), without intersecting it with the image's
bounds: every image it persists equals the PIL crop of the source, whose
size is exactly (w, h) for any nonnegative rectangle — the out-of-bounds
area is zero-filled, not clipped — so a rectangle extending past the edge
yields a cropped image of the full rectangle size, not the overlap size. -/
theorem C4_crop_keeps_rect_size (env : CropEnv) (r0 : ℕ) (fp : String) (im : PILImage)
    (hmem : (fp, im) ∈ (cropTask env r0).croppedSaved)
    (x y w h : ℤ) (harea : env.crop_area = (x, y, w, h)) :
    im = cropForPage env.crop_area (env.content fp) ∧
    im.width = w.toNat ∧ im.height = h.toNat := by
  have he := cropTask_mem env r0 fp im hmem
  refine ⟨he, ?_, ?_⟩
  · rw [he, harea]
    exact (cropForPage_size x y w h (env.content fp)).1
  · rw [he, harea]
    exact (cropForPage_size x y w h (env.content fp)).2

/-- C4 amended witness: the cropped image persisted for the 4x4 sample and
rectangle (2, 2, 5, 5) is the unclamped PIL crop of size 5x5. -/
theorem C4_crop_keeps_rect_size_witness :
    cropForPage (2, 2, 5, 5) demoImg =
      cropForPage envCropOver.crop_area (envCropOver.content "page_0001.png") ∧
    (cropForPage (2, 2, 5, 5) demoImg).width = (5 : ℤ).toNat ∧
    (cropForPage (2, 2, 5, 5) demoImg).height = (5 : ℤ).toNat :=
  C4_crop_keeps_rect_size envCropOver 1 "page_0001.png"
    (cropForPage (2, 2, 5, 5) demoImg) (List.mem_singleton.mpr rfl) 2 2 5 5 rfl

/-- C5 counterexample: with an RGBA source image, the image persisted
under the cropped directory still has mode RGBA, not the three-channel
no-alpha RGB model: no conversion happens before the save of line 453,
refuting that the persisted cropped image has already been converted. -/
theorem C5_no_convert_counterexample :
    ("page_0001.png", cropForPage (0, 0, 1, 1) rgbaImg) ∈
      (cropTask envCropRGBA 1).croppedSaved ∧
    (cropForPage (0, 0, 1, 1) rgbaImg).mode = PILMode.RGBA ∧
    PILMode.RGBA ≠ PILMode.RGB := by
  refine ⟨List.mem_singleton.mpr rfl, by decide, by decide⟩

/-- C5 amended: the images persisted under the cropped directory are not
converted before saving — each keeps the mode of its source image — and
the conversion to the fixed three-channel no-alpha RGB model happens only
later, at PDF assembly, when the cropped files are reopened: every page
handed to the PDF writer has mode RGB. -/
theorem C5_convert_happens_at_pdf (env : CropEnv) (r0 : ℕ) :
    (∀ fp im, (fp, im) ∈ (cropTask env r0).croppedSaved →
      im.mode = (env.content fp).mode) ∧
    (∀ pages, (cropTask env r0).pdf = some pages →
      ∀ im ∈ pages, im.mode = PILMode.RGB) := by
  constructor
  · intro fp im hmem
    rw [cropTask_mem env r0 fp im hmem]
    exact cropForPage_mode env.crop_area (env.content fp)
  · intro pages hp
    exact cropTask_pdf_modes env r0 pages hp

/-- C5 amended witness: for the RGBA sample the persisted cropped image
keeps mode RGBA, and the single PDF page built from it has mode RGB. -/
theorem C5_convert_happens_at_pdf_witness :
    (cropForPage (0, 0, 1, 1) rgbaImg).mode =
      (envCropRGBA.content "page_0001.png").mode ∧
    ((cropForPage (0, 0, 1, 1) rgbaImg).convertRGB).mode = PILMode.RGB := by
  obtain ⟨h1, h2⟩ := C5_convert_happens_at_pdf envCropRGBA 1
  refine ⟨h1 "page_0001.png" (cropForPage (0, 0, 1, 1) rgbaImg)
    (List.mem_singleton.mpr rfl), ?_⟩
  exact h2 [(cropForPage (0, 0, 1, 1) rgbaImg).convertRGB] rfl _ (List.mem_singleton.mpr rfl)

/-- C6 counterexample: at page 29 of 50, the progress computed by line 414
— int((page/total)*50) over binary64 floats — is 28, while the exact
rational floor(29/50*50) is 29: binary64 rounding of 29/50 falls just
below the exact value and the subsequent multiplication by 50 rounds to
just below 29, so int truncates to 28, refuting exact-rational equality. -/
theorem C6_progress_counterexample :
    progressCapture 29 50 = 28 ∧
    ⌊(29 : ℚ) / 50 * 50⌋ = 29 ∧
    (progressCapture 29 50 : ℤ) ≠ ⌊(29 : ℚ) / 50 * 50⌋ := by
  have h1 : progressCapture 29 50 = 28 := by decide
  have h2 : ⌊(29 : ℚ) / 50 * 50⌋ = 29 := by
    rw [show (29 : ℚ) / 50 * 50 = 29 by norm_num]
    norm_num
  refine ⟨h1, h2, ?_⟩
  rw [h1, h2]
  decide

/-- C6 amended: for every 1 ≤ page ≤ total ≤ 9999 the capture progress of
line 414 — int((page/total)*50) over binary64 — never exceeds the exact
floor(page/total*50) and is at most one below it, with equality whenever
total does not divide 50·page; likewise the crop progress of line 455 —
50 + int((i/total_images)*40) — is within one below 50 + floor(i/ti*40),
with equality whenever ti does not divide 40·i. (The double binary64
rounding can land just below an exactly-representable integer result,
which int then truncates — as at page 29 of 50.) -/
theorem C6_progress_within_one (p t i ti : ℕ)
    (hp : 1 ≤ p) (hpt : p ≤ t) (ht : t ≤ 9999)
    (hi : 1 ≤ i) (hit : i ≤ ti) (hti : ti ≤ 9999) :
    ((progressCapture p t : ℤ) ≤ ⌊(p : ℚ) / t * 50⌋ ∧
      ⌊(p : ℚ) / t * 50⌋ - 1 ≤ (progressCapture p t : ℤ) ∧
      (¬ t ∣ 50 * p → (progressCapture p t : ℤ) = ⌊(p : ℚ) / t * 50⌋)) ∧
    ((progressCrop i ti : ℤ) ≤ 50 + ⌊(i : ℚ) / ti * 40⌋ ∧
      50 + ⌊(i : ℚ) / ti * 40⌋ - 1 ≤ (progressCrop i ti : ℤ) ∧
      (¬ ti ∣ 40 * i → (progressCrop i ti : ℤ) = 50 + ⌊(i : ℚ) / ti * 40⌋)) := by
  obtain ⟨⟨hc1, hc2⟩, hc3⟩ := floatProg_bounds 50 p t (by norm_num) (by norm_num) hp hpt ht
  obtain ⟨⟨hd1, hd2⟩, hd3⟩ := floatProg_bounds 40 i ti (by norm_num) (by norm_num) hi hit hti
  have hfl1 : ⌊(p : ℚ) / t * 50⌋ = ((50 * p) / t : ℕ) := by
    rw [show (p : ℚ) / t * 50 = (50 : ℚ) * p / t by ring]
    exact exact_floor_eq 50 p t (le_trans hp hpt)
  have hfl2 : ⌊(i : ℚ) / ti * 40⌋ = ((40 * i) / ti : ℕ) := by
    rw [show (i : ℚ) / ti * 40 = (40 : ℚ) * i / ti by ring]
    exact exact_floor_eq 40 i ti (le_trans hi hit)
  have hpc : progressCapture p t = floatProg 50 p t := rfl
  have hic : progressCrop i ti = 50 + floatProg 40 i ti := rfl
  rw [hfl1, hfl2, hpc, hic]
  refine ⟨⟨by omega, by omega, fun h => ?_⟩, ⟨by omega, by omega, fun h => ?_⟩⟩
  · have := hc3 h
    omega
  · have := hd3 h
    omega

/-- C6 amended witness: at page 1 of 3 (3 divides neither 50 nor 40) the
bounds hold and both exactness conditions apply. -/
theorem C6_progress_within_one_witness :
    ((progressCapture 1 3 : ℤ) ≤ ⌊((1 : ℕ) : ℚ) / ((3 : ℕ) : ℚ) * 50⌋ ∧
      ⌊((1 : ℕ) : ℚ) / ((3 : ℕ) : ℚ) * 50⌋ - 1 ≤ (progressCapture 1 3 : ℤ) ∧
      (¬ (3 : ℕ) ∣ 50 * 1 →
        (progressCapture 1 3 : ℤ) = ⌊((1 : ℕ) : ℚ) / ((3 : ℕ) : ℚ) * 50⌋)) ∧
    ((progressCrop 1 3 : ℤ) ≤ 50 + ⌊((1 : ℕ) : ℚ) / ((3 : ℕ) : ℚ) * 40⌋ ∧
      50 + ⌊((1 : ℕ) : ℚ) / ((3 : ℕ) : ℚ) * 40⌋ - 1 ≤ (progressCrop 1 3 : ℤ) ∧
      (¬ (3 : ℕ) ∣ 40 * 1 →
        (progressCrop 1 3 : ℤ) = 50 + ⌊((1 : ℕ) : ℚ) / ((3 : ℕ) : ℚ) * 40⌋)) :=
  C6_progress_within_one 1 3 1 3 (by decide) (by decide) (by decide)
    (by decide) (by decide) (by decide)
